import Mathlib

/-!
# Marshalling between host values and the Lua stack (`lua_bindings.hpp`)

A shallow embedding of `LuaFunctionCaller`: the shape probes `isList` and `isDict`, the
type-directed converters `readFromLuaStack<T>` and `pushToLuaStack<T>`, and the part of the Lua
C API they are written against.

The Lua runtime itself is not part of the repository.  It is modelled by a stack of values
(`lua_State.stack`, top of the stack first) and by the API functions the header calls, following
the Lua 5.4 reference manual.  Tables are values: a table is the list of its key/value entries in
the order `lua_next` enumerates them, together with the number the length operator reports for it.

What the model leaves out:
* metatables: `lua_len` and `lua_rawlen` both report the length recorded in the table;
* pseudo-indices: an index designates a slot of the current frame or nothing;
* resource limits: the stack never overflows, allocation never fails, and a table length fits the
  `int` the header keeps it in;
* identity of tables: a slot holds the table itself, and each push of a table makes a new one.

Strings, in the host and in the runtime, are sequences of bytes that may contain NUL; a
`const char*` argument or result stands for the bytes before the first NUL (`cstr`).
-/

namespace LuaBindings

/-! ## Values of the guest runtime -/

/-- A `lua_Number` (IEEE-754 binary64), kept as its 64-bit pattern. -/
structure LuaNumber where
  bits : Nat
deriving DecidableEq, Repr

/-- A value held in a stack slot or in a table.  `lua_Integer` payloads are 64-bit two's
complement numbers.  A table carries its entries in enumeration order and the length the runtime
reports for it; functions, userdata and threads are identified by an address. -/
inductive LuaValue where
  | nil
  | boolean (b : Bool)
  | lightuserdata (p : Nat)
  | integer (i : Int)
  | number (x : LuaNumber)
  | string (s : String)
  | table (entries : List (LuaValue × LuaValue)) (length : Nat)
  | function (p : Nat)
  | userdata (p : Nat)
  | thread (p : Nat)

/-- The entries of a table, as a list of key/value pairs. -/
abbrev Entries := List (LuaValue × LuaValue)

/-- The state of one runtime instance.  `stack` lists the slots of the current frame, top first.
`getn` is the primitive that computes the length of a table from its entries (`luaH_getn`): the
reference manual only promises that it returns a border.  `globals` is the global namespace and
`closures` gives, for a function address, what a protected call of it on given arguments yields:
the returned values, or the error object raised. -/
structure lua_State where
  stack : List LuaValue
  getn : Entries → Nat
  globals : String → LuaValue
  closures : Nat → List LuaValue → Except LuaValue (List LuaValue)

/-! ## Type tags (`lua.h`, and `LUA_TINTEGER` of the header) -/

def LUA_TNONE : Int := -1
def LUA_TNIL : Int := 0
def LUA_TBOOLEAN : Int := 1
def LUA_TLIGHTUSERDATA : Int := 2
def LUA_TNUMBER : Int := 3
def LUA_TSTRING : Int := 4
def LUA_TTABLE : Int := 5
def LUA_TFUNCTION : Int := 6
def LUA_TUSERDATA : Int := 7
def LUA_TTHREAD : Int := 8
def LUA_TINTEGER : Int := 200

/-- The basic type of a value, as `lua_type` reports it: integers and floats share
`LUA_TNUMBER`. -/
def LuaValue.typeTag : LuaValue → Int
  | .nil => LUA_TNIL
  | .boolean _ => LUA_TBOOLEAN
  | .lightuserdata _ => LUA_TLIGHTUSERDATA
  | .integer _ => LUA_TNUMBER
  | .number _ => LUA_TNUMBER
  | .string _ => LUA_TSTRING
  | .table _ _ => LUA_TTABLE
  | .function _ => LUA_TFUNCTION
  | .userdata _ => LUA_TUSERDATA
  | .thread _ => LUA_TTHREAD

/-! ## 64-bit integers and doubles -/

/-- Conversion of an integer to a signed type of `w` bits (two's complement wrap-around). -/
def wrapSigned (w : Nat) (x : Int) : Int :=
  let m := x % (2 : Int) ^ w
  if m < (2 : Int) ^ (w - 1) then m else m - (2 : Int) ^ w

/-- Conversion of an integer to an unsigned type of `w` bits. -/
def wrapUnsigned (w : Nat) (x : Int) : Int :=
  x % (2 : Int) ^ w

/-- Whether a double is `+0.0` or `-0.0`. -/
def LuaNumber.isZero (x : LuaNumber) : Bool :=
  x.bits % 2 ^ 63 == 0

/-- The integer part of a double (rounding toward zero); `none` for infinities and NaN. -/
def LuaNumber.truncate (x : LuaNumber) : Option Int :=
  let e := x.bits / 2 ^ 52 % 2048
  let f := x.bits % 2 ^ 52
  let negative := x.bits / 2 ^ 63 % 2 == 1
  if e == 2047 then none
  else
    let magnitude : Nat :=
      if e == 0 then 0
      else if e ≥ 1075 then (2 ^ 52 + f) * 2 ^ (e - 1075)
      else (2 ^ 52 + f) / 2 ^ (1075 - e)
    some (if negative then -(magnitude : Int) else (magnitude : Int))

/-- The double nearest to an integer (ties to even), as `static_cast<lua_Number>` yields. -/
def LuaNumber.ofInt (i : Int) : LuaNumber :=
  let m := i.natAbs
  if m == 0 then ⟨0⟩
  else
    let e := Nat.log2 m
    let sign := if i < 0 then 2 ^ 63 else 0
    if e ≤ 52 then ⟨sign + (e + 1023) * 2 ^ 52 + (m * 2 ^ (52 - e) - 2 ^ 52)⟩
    else
      let sh := e - 52
      let q := m / 2 ^ sh
      let r := m % 2 ^ sh
      let half := 2 ^ (sh - 1)
      let q := if r > half ∨ (r = half ∧ q % 2 = 1) then q + 1 else q
      ⟨sign + (e + 1023) * 2 ^ 52 + (q - 2 ^ 52)⟩

/-! ## Stack addressing -/

/-- Number of slots in the current frame (`lua_gettop`). -/
def lua_gettop (L : lua_State) : Int :=
  L.stack.length

/-- The `lua_absindex` function: a relative (non-positive) index is turned into the absolute
one.  Pseudo-indices are not modelled. -/
def lua_absindex (L : lua_State) (idx : Int) : Int :=
  if idx > 0 then idx else lua_gettop L + 1 + idx

/-- Position, in the top-first list, of the slot an index designates; `none` when the index
designates no slot of the frame. -/
def stackPos (L : lua_State) (idx : Int) : Option Nat :=
  if 0 < idx ∧ idx ≤ lua_gettop L then some (L.stack.length - idx.toNat)
  else if idx < 0 ∧ -idx ≤ lua_gettop L then some ((-idx).toNat - 1)
  else none

/-- The value in the designated slot; `none` stands for `LUA_TNONE`. -/
def index2value (L : lua_State) (idx : Int) : Option LuaValue :=
  match stackPos L idx with
  | some p => L.stack[p]?
  | none => none

/-- Pushes one value (`api_incr_top` after a store to the top). -/
def pushValue (L : lua_State) (v : LuaValue) : lua_State :=
  { L with stack := v :: L.stack }

/-- The `lua_pop(L, n)` function. -/
def lua_pop (L : lua_State) (n : Nat) : lua_State :=
  { L with stack := L.stack.drop n }

/-! ## Inspecting slots -/

def lua_type (L : lua_State) (idx : Int) : Int :=
  match index2value L idx with
  | some v => v.typeTag
  | none => LUA_TNONE

def lua_isnil (L : lua_State) (idx : Int) : Bool :=
  lua_type L idx == LUA_TNIL

def lua_istable (L : lua_State) (idx : Int) : Bool :=
  lua_type L idx == LUA_TTABLE

def lua_isfunction (L : lua_State) (idx : Int) : Bool :=
  lua_type L idx == LUA_TFUNCTION

/-- The `lua_isinteger` function: the slot holds a number of the integer subtype. -/
def lua_isinteger (L : lua_State) (idx : Int) : Bool :=
  match index2value L idx with
  | some (.integer _) => true
  | _ => false

/-- The `lua_tointeger` function.  A float with an exact integer value in range converts; every
other non-integer slot gives 0 (numeric strings are not converted here: the header only calls
this on slots it has found to be integers, and on the result of `lua_len`). -/
def lua_tointeger (L : lua_State) (idx : Int) : Int :=
  match index2value L idx with
  | some (.integer i) => i
  | some (.number x) =>
    match x.truncate with
    | some z =>
      if LuaNumber.ofInt z = x ∧ -(2 : Int) ^ 63 ≤ z ∧ z < (2 : Int) ^ 63 then z else 0
    | none => 0
  | _ => 0

/-- The `lua_tonumber` function (0 for slots that are not numbers). -/
def lua_tonumber (L : lua_State) (idx : Int) : LuaNumber :=
  match index2value L idx with
  | some (.number x) => x
  | some (.integer i) => LuaNumber.ofInt i
  | _ => ⟨0⟩

/-- The `lua_toboolean` function: 0 for `false`, `nil` and no value, 1 otherwise. -/
def lua_toboolean (L : lua_State) (idx : Int) : Int :=
  match index2value L idx with
  | some (.boolean b) => if b then 1 else 0
  | some .nil => 0
  | none => 0
  | _ => 1

/-- The bytes of a C string: what precedes the first NUL byte. -/
def cstr (s : String) : String :=
  String.mk (s.data.takeWhile fun c => c != Char.ofNat 0)

/-- The `lua_tostring` function: a pointer to the bytes of the Lua string in a string slot, which
may contain NUL bytes, and the null pointer (`none`) for a slot that is neither a string nor a
number.  On a number slot the runtime converts the number to a string in place; that conversion
is not modelled and the null pointer stands there too.  The header calls this function on slots
it has found to be strings, and on the error object of a failed call. -/
def lua_tostring (L : lua_State) (idx : Int) : Option String :=
  match index2value L idx with
  | some (.string s) => some s
  | _ => none

/-- The `std::string(const char*)` constructor applied to the result of `lua_tostring`. -/
def std_string (p : Option String) : String :=
  match p with
  | some s => cstr s
  | none => ""

/-! ## Pushing scalars -/

def lua_pushnil (L : lua_State) : lua_State :=
  pushValue L .nil

/-- The `lua_pushinteger` function; the argument is converted to `lua_Integer` (64 bits, signed),
which is where an unsigned argument above the signed maximum wraps around. -/
def lua_pushinteger (L : lua_State) (n : Int) : lua_State :=
  pushValue L (.integer (wrapSigned 64 n))

def lua_pushnumber (L : lua_State) (x : LuaNumber) : lua_State :=
  pushValue L (.number x)

def lua_pushboolean (L : lua_State) (b : Int) : lua_State :=
  pushValue L (.boolean (b != 0))

/-- The `lua_pushstring` function on a `const char*`: the runtime copies the zero-terminated
string, so the argument is given by the bytes of the host buffer and is cut at its first NUL. -/
def lua_pushstring (L : lua_State) (s : String) : lua_State :=
  pushValue L (.string (cstr s))

/-! ## Tables -/

/-- Raw equality of a stored key with a key that is looked up.  Tables are compared by identity
in Lua; a table value of this model carries no identity and is never found as a key. -/
def rawKeyEq : LuaValue → LuaValue → Bool
  | .nil, .nil => true
  | .boolean a, .boolean b => a == b
  | .lightuserdata a, .lightuserdata b => a == b
  | .integer a, .integer b => a == b
  | .number a, .number b => a == b
  | .string a, .string b => a == b
  | .function a, .function b => a == b
  | .userdata a, .userdata b => a == b
  | .thread a, .thread b => a == b
  | _, _ => false

/-- Raw read `t[k]`: the value stored under the key, `nil` when there is none. -/
def tableGet (es : Entries) (k : LuaValue) : LuaValue :=
  match es.find? fun e => rawKeyEq e.1 k with
  | some e => e.2
  | none => .nil

/-- Float keys with an exact integer value are stored as integer keys. -/
def normKey : LuaValue → LuaValue
  | .number x =>
    match x.truncate with
    | some z =>
      if LuaNumber.ofInt z = x ∧ -(2 : Int) ^ 63 ≤ z ∧ z < (2 : Int) ^ 63 then .integer z
      else .number x
    | none => .number x
  | k => k

/-- Raw write `t[k] = v`.  Storing `nil` removes the entry; storing under a key already present
replaces its value in place; a new key is enumerated after the existing ones.  (Lua raises an
error for a `nil` key; the table is left as it is here.) -/
def tableSet (es : Entries) (k v : LuaValue) : Entries :=
  let k := normKey k
  match k, v with
  | .nil, _ => es
  | _, .nil => es.filter fun e => !rawKeyEq e.1 k
  | _, _ =>
    if es.any fun e => rawKeyEq e.1 k then
      es.map fun e => if rawKeyEq e.1 k then (e.1, v) else e
    else es ++ [(k, v)]

/-- A border of a table, as the reference manual defines it: `n` is 0 or `t[n]` is not nil, and
`t[n+1]` is nil. -/
def IsBorder (es : Entries) (n : Nat) : Prop :=
  (n = 0 ∨ tableGet es (.integer n) ≠ .nil) ∧ tableGet es (.integer (n + 1)) = .nil

/-- Length of a value as `lua_rawlen` and, without a `__len` metamethod, the length operator report
it: the recorded length of a table, the byte count of a string, 0 otherwise. -/
def objLength : Option LuaValue → Nat
  | some (.table _ n) => n
  | some (.string s) => s.length
  | _ => 0

/-- The `lua_len` function: pushes the length of the value in the slot.  (For a value that is
neither a table nor a string Lua raises an error; `isList` calls it on tables only.) -/
def lua_len (L : lua_State) (idx : Int) : lua_State :=
  pushValue L (.integer (objLength (index2value L idx)))

def lua_rawlen (L : lua_State) (idx : Int) : Nat :=
  objLength (index2value L idx)

/-- Entries of the table in the slot (none for a slot that holds no table). -/
def tableEntries (L : lua_State) (idx : Int) : Entries :=
  match index2value L idx with
  | some (.table es _) => es
  | _ => []

/-- The `lua_rawgeti` function: pushes `t[n]` for the table `t` in the slot. -/
def lua_rawgeti (L : lua_State) (idx : Int) (n : Int) : lua_State :=
  pushValue L (tableGet (tableEntries L idx) (.integer n))

/-- The `lua_createtable` function: pushes a new empty table.  The size hints only preallocate. -/
def lua_createtable (L : lua_State) (_narr _nrec : Int) : lua_State :=
  pushValue L (.table [] (L.getn []))

/-- Stores `t[k] = v` into the table held at list position `p`, then removes `n` slots from the
top.  The length the table reports afterwards is what the length primitive finds for the new
entries. -/
def storeAndPop (L : lua_State) (p : Option Nat) (k v : LuaValue) (n : Nat) : lua_State :=
  match p with
  | some p =>
    match L.stack[p]? with
    | some (.table es _) =>
      let es := tableSet es k v
      lua_pop { L with stack := L.stack.set p (.table es (L.getn es)) } n
    | _ => lua_pop L n
  | none => lua_pop L n

/-- The `lua_rawseti` function: `t[n] = v` for the value `v` on the top, which is popped. -/
def lua_rawseti (L : lua_State) (idx : Int) (n : Int) : lua_State :=
  match L.stack with
  | v :: _ => storeAndPop L (stackPos L idx) (.integer n) v 1
  | [] => L

/-- The `lua_settable` function: `t[k] = v` for the value `v` on the top and the key `k` just
below it; both are popped. -/
def lua_settable (L : lua_State) (idx : Int) : lua_State :=
  match L.stack with
  | v :: k :: _ => storeAndPop L (stackPos L idx) k v 2
  | _ => L

/-- The `lua_next` function: pops the key on the top and, when the traversal has a further entry,
pushes its key and then its value and returns 1; returns 0 and pushes nothing at the end.  The
place of the popped key in the enumeration is made explicit: the caller passes the entry that
follows it, if there is one. -/
def lua_next (L : lua_State) (next : Option (LuaValue × LuaValue)) : Int × lua_State :=
  match next with
  | some (k, v) => (1, pushValue (pushValue (lua_pop L 1) k) v)
  | none => (0, lua_pop L 1)

/-! ## Shape probes -/

/-- The `while (lua_next(L, index))` loop of `isList` (lines 132-153), over the entries still to
be enumerated; at the end, line 156. -/
def isList_loop (tableLength : Int) : Entries → Int → lua_State → Bool × lua_State
  | [], maxKey, L =>
    let L := (lua_next L none).2
    (maxKey == tableLength, L)
  | e :: rest, maxKey, L =>
    let L := (lua_next L (some e)).2
    if !lua_isinteger L (-2) then
      (false, lua_pop L 2)
    else
      let key := lua_tointeger L (-2)
      if key < 1 then
        (false, lua_pop L 2)
      else
        let maxKey := if key > maxKey then key else maxKey
        let L := lua_pop L 1
        isList_loop tableLength rest maxKey L

/-- The `isList` function (lines 110-157).  Returns the answer and the state it leaves. -/
def isList (L : lua_State) (index : Int) : Bool × lua_State :=
  let index := lua_absindex L index
  if !lua_istable L index then
    (false, L)
  else
    let L := lua_len L index
    let tableLength := lua_tointeger L (-1)
    let L := lua_pop L 1
    if tableLength == 0 then
      (true, L)
    else
      let L := lua_pushnil L
      isList_loop tableLength (tableEntries L index) 0 L

/-- The `while (lua_next(L, index))` loop of `isDict` (lines 171-182); at the end, line 185. -/
def isDict_loop : Entries → lua_State → Bool × lua_State
  | [], L =>
    let L := (lua_next L none).2
    (true, L)
  | e :: rest, L =>
    let L := (lua_next L (some e)).2
    let keyType := lua_type L (-2)
    if keyType == LUA_TNIL then
      (false, lua_pop L 2)
    else
      let L := lua_pop L 1
      isDict_loop rest L

/-- The `isDict` function (lines 160-186). -/
def isDict (L : lua_State) (index : Int) : Bool × lua_State :=
  let index := lua_absindex L index
  if !lua_istable L index then
    (false, L)
  else
    let L := lua_pushnil L
    isDict_loop (tableEntries L index) L

/-! ## Host types -/

/-- The integral types of the host (`std::is_integral_v`), by width and signedness.  `bool` and
`char` are integral types too; `char` is the element type of `String<N>`. -/
inductive IntegralType where
  | bool | char | int8 | uint8 | int16 | uint16 | int32 | uint32 | int64 | uint64
deriving DecidableEq, Repr

/-- Width in bits of the value representation. -/
def IntegralType.bits : IntegralType → Nat
  | .bool => 1
  | .char => 8
  | .int8 => 8
  | .uint8 => 8
  | .int16 => 16
  | .uint16 => 16
  | .int32 => 32
  | .uint32 => 32
  | .int64 => 64
  | .uint64 => 64

/-- The `std::is_signed_v` trait (`char` is signed on the platforms considered). -/
def IntegralType.isSigned : IntegralType → Bool
  | .char => true
  | .int8 => true
  | .int16 => true
  | .int32 => true
  | .int64 => true
  | _ => false

def IntegralType.minValue (T : IntegralType) : Int :=
  if T.isSigned then -(2 : Int) ^ (T.bits - 1) else 0

def IntegralType.maxValue (T : IntegralType) : Int :=
  if T.isSigned then (2 : Int) ^ (T.bits - 1) - 1 else (2 : Int) ^ T.bits - 1

/-- The values of the type; a `bool` is 0 (`false`) or 1 (`true`). -/
def IntegralType.InRange (T : IntegralType) (v : Int) : Prop :=
  T.minValue ≤ v ∧ v ≤ T.maxValue

instance (T : IntegralType) (v : Int) : Decidable (T.InRange v) := by
  unfold IntegralType.InRange; infer_instance

/-- The conversion `static_cast<T>(x)` of an integer: nonzero test for `bool`, reduction modulo
`2^bits` otherwise. -/
def IntegralType.cast (T : IntegralType) (x : Int) : Int :=
  match T with
  | .bool => if x = 0 then 0 else 1
  | _ => if T.isSigned then wrapSigned T.bits x else wrapUnsigned T.bits x

/-- The conversion `static_cast<T>(x)` of a double: nonzero test for `bool`, the integer part
otherwise.  (C++ leaves the result undefined when the integer part is not a value of `T`, and for
NaN; the model reduces it like an integer, and gives 0 for NaN and infinities.) -/
def IntegralType.castNumber (T : IntegralType) (x : LuaNumber) : Int :=
  match T with
  | .bool => if x.isZero then 0 else 1
  | _ =>
    match x.truncate with
    | some z => T.cast z
    | none => 0

/-- The alternatives of `BasicLuaType`, that is `std::variant<LUA_BASIC_TYPES>`:
`lua_Integer`, `lua_Number`, `bool`, `std::string`, `std::nullopt_t`. -/
inductive BasicLuaType where
  | integer (i : Int)
  | number (x : LuaNumber)
  | boolean (b : Bool)
  | string (s : String)
  | nullopt
deriving DecidableEq, Repr

/-- Key types of the maps embedded here: integral types and `std::string`. -/
inductive KeyType where
  | integral (T : IntegralType)
  | string
deriving DecidableEq, Repr

@[reducible] def KeyType.denote : KeyType → Type
  | .integral _ => Int
  | .string => String

instance (K : KeyType) : DecidableEq K.denote := by
  cases K <;> (unfold KeyType.denote; infer_instance)

/-- The type descriptors `readFromLuaStack<T>` and `pushToLuaStack<T>` are instantiated at.
`floating` is `double`.  `array T N` is `std::array<T, N>`, so that `String<N>` is
`array (integral char) N`; `arrayPair T N M` is `std::pair<std::array<T, N>, M>` with `M`
integral, so that the string and success flag pair is `arrayPair (integral char) N bool`;
`map K V` is `std::unordered_map<K, V>`. -/
inductive HostType where
  | basic
  | optional (T : HostType)
  | integral (T : IntegralType)
  | floating
  | string
  | array (T : HostType) (N : Nat)
  | arrayPair (T : HostType) (N : Nat) (M : IntegralType)
  | vector (T : HostType)
  | map (K : KeyType) (V : HostType)
deriving DecidableEq, Repr

/-- Host values of a type.  Integral values are integers in the range of the type.  A
`std::array` is given by the list of its elements from position 0, as far as they have been
assigned: the positions a read leaves untouched hold indeterminate values and are not listed.  A
`std::unordered_map` is the list of its key/value pairs, in the order it is iterated. -/
@[reducible] def HostType.denote : HostType → Type
  | .basic => BasicLuaType
  | .optional T => Option T.denote
  | .integral _ => Int
  | .floating => LuaNumber
  | .string => String
  | .array T _ => List T.denote
  | .arrayPair T _ _ => List T.denote × Int
  | .vector T => List T.denote
  | .map K V => List (K.denote × V.denote)

/-- Outcome of a conversion: the value returned or the `what()` of the `std::runtime_error`
thrown, and the state of the runtime at that point. -/
abbrev Result (α : Type) := Except String α × lua_State

/-! ## Reading scalars -/

/-- The `lua_get_type` macro (lines 17-24): `lua_type`, refined to `LUA_TINTEGER` for numbers of
the integer subtype. -/
def lua_get_type (L : lua_State) (index : Int) : Int :=
  let name := lua_type L index
  if name == LUA_TNUMBER then
    if lua_isinteger L index then LUA_TINTEGER else name
  else name

/-- Branch `std::is_same_v<T, BasicLuaType>` of `readFromLuaStack` (lines 269-284). -/
def readBasic (L : lua_State) (fn : String) (index : Int) : Result BasicLuaType :=
  let type := lua_get_type L index
  if type == LUA_TNIL then (.ok .nullopt, L)
  else if type == LUA_TINTEGER then (.ok (.integer (lua_tointeger L index)), L)
  else if type == LUA_TNUMBER then (.ok (.number (lua_tonumber L index)), L)
  else if type == LUA_TBOOLEAN then (.ok (.boolean (lua_toboolean L index != 0)), L)
  else if type == LUA_TSTRING then (.ok (.string (std_string (lua_tostring L index))), L)
  else (.error ("Unexpected non-BasicLuaType " ++ fn), L)

/-- Branch `std::is_integral_v<T>` of `readFromLuaStack` (lines 292-307). -/
def readIntegral (T : IntegralType) (L : lua_State) (fn : String) (index : Int) : Result Int :=
  let type := lua_get_type L index
  if type == LUA_TNIL then (.error ("Unexpected nil " ++ fn ++ ", expected an integer"), L)
  else if type == LUA_TINTEGER then (.ok (T.cast (lua_tointeger L index)), L)
  else if type == LUA_TNUMBER then (.ok (T.castNumber (lua_tonumber L index)), L)
  else if type == LUA_TBOOLEAN then (.ok (T.cast (lua_toboolean L index)), L)
  else if type == LUA_TSTRING then
    (.error ("Unexpected string " ++ fn ++ ", expected an integer"), L)
  else (.error ("Unexpected non-BasicLuaType type " ++ fn ++ ", expected an integer"), L)

/-- Branch `std::is_floating_point_v<T>` of `readFromLuaStack` (lines 308-323). -/
def readFloating (L : lua_State) (fn : String) (index : Int) : Result LuaNumber :=
  let type := lua_get_type L index
  if type == LUA_TNIL then (.error ("Unexpected nil " ++ fn ++ ", expected a float"), L)
  else if type == LUA_TINTEGER then (.ok (LuaNumber.ofInt (lua_tointeger L index)), L)
  else if type == LUA_TNUMBER then (.ok (lua_tonumber L index), L)
  else if type == LUA_TBOOLEAN then (.error ("Unexpected bool " ++ fn ++ ", expected a float"), L)
  else if type == LUA_TSTRING then (.error ("Unexpected string " ++ fn ++ ", expected a float"), L)
  else (.error ("Unexpected non-BasicLuaType " ++ fn ++ ", expected a float"), L)

/-- Branch `std::is_same_v<T, std::string>` of `readFromLuaStack` (lines 324-328). -/
def readString (L : lua_State) (fn : String) (index : Int) : Result String :=
  if lua_type L index != LUA_TSTRING then
    (.error ("Unexpected non-string type " ++ fn), L)
  else (.ok (std_string (lua_tostring L index)), L)

/-- The value of a byte as a `char`. -/
def charValue (c : Char) : Int :=
  wrapSigned 8 c.toNat

/-- The call `snprintf(buf, N, "%s", src)`: the bytes stored into the buffer, terminator included
(nothing for `N = 0`), and the returned count, which is the length of the source C string. -/
def snprintf (N : Nat) (src : Option String) : List Int × Int :=
  let s := std_string src
  (if N = 0 then [] else (s.data.take (N - 1)).map charValue ++ [0], s.length)

/-- Branch `is_string<T>` of `readFromLuaStack` (lines 329-335), for `String<N>`. -/
def readStringBuf (N : Nat) (L : lua_State) (fn : String) (index : Int) : Result (List Int) :=
  if lua_type L index != LUA_TSTRING then
    (.error ("Unexpected non-string type " ++ fn), L)
  else (.ok (snprintf N (lua_tostring L index)).1, L)

/-- Branch `is_string_bool_pair<T>` of `readFromLuaStack` (lines 336-346). -/
def readStringBoolPair (N : Nat) (L : lua_State) (fn : String) (index : Int) :
    Result (List Int × Int) :=
  if lua_type L index != LUA_TSTRING then
    (.error ("Unexpected non-string type " ++ fn), L)
  else
    let second : Int := 1
    let out := snprintf N (lua_tostring L index)
    let spaceNeeded := out.2
    let second := if spaceNeeded ≥ N then 0 else second
    (.ok (out.1, second), L)

/-- Branch `std::is_same_v<T, bool>` of `readFromLuaStack` (lines 347-362).  It comes after the
`std::is_integral_v<T>` branch in the `if constexpr` chain, and `bool` is an integral type, so no
instantiation selects it. -/
def readBoolBranch (L : lua_State) (fn : String) (index : Int) : Result Int :=
  let type := lua_get_type L index
  if type == LUA_TNIL then (.error ("Unexpected nil " ++ fn ++ ", expected a bool"), L)
  else if type == LUA_TINTEGER then (.ok (IntegralType.bool.cast (lua_tointeger L index)), L)
  else if type == LUA_TNUMBER then (.error ("Unexpected float " ++ fn ++ ", expected a bool"), L)
  else if type == LUA_TBOOLEAN then (.ok (IntegralType.bool.cast (lua_toboolean L index)), L)
  else if type == LUA_TSTRING then (.error ("Unexpected string " ++ fn ++ ", expected a bool"), L)
  else (.error ("Unexpected non-BasicLuaType " ++ fn ++ ", expected a bool"), L)

/-! ## Reading composites -/

/-- Branch `is_optional<T>` of `readFromLuaStack` (lines 285-291), over the reader of the value
type. -/
def readOptional {α : Type} (readValue : lua_State → String → Int → Result α)
    (L : lua_State) (fn : String) (index : Int) : Result (Option α) :=
  if lua_isnil L index then (.ok none, L)
  else
    match readValue L fn index with
    | (.ok v, L) => (.ok (some v), L)
    | (.error m, L) => (.error m, L)

/-- The `luaL_checktype(L, index, LUA_TTABLE)` call: raises an error unless the slot is a table.
Both callers reach it after `isList` has answered true. -/
def luaL_checktype_table (L : lua_State) (index : Int) : Except String Unit :=
  if lua_type L index != LUA_TTABLE then .error "table expected" else .ok ()

/-- The `for (int i = 1; i <= len; ++i)` loop of the vector branch (lines 372-376): `count`
iterations are left, `i` is the next index. -/
def readVector_loop {α : Type} (readValue : lua_State → String → Int → Result α)
    (fn : String) (index : Int) : Nat → Int → List α → lua_State → Result (List α)
  | 0, _, result, L => (.ok result, L)
  | count + 1, i, result, L =>
    let L := lua_rawgeti L index i
    match readValue L fn (-1) with
    | (.error m, L) => (.error m, L)
    | (.ok v, L) =>
      let result := result ++ [v]
      let L := lua_pop L 1
      readVector_loop readValue fn index count (i + 1) result L

/-- Branch `is_vector<T>` of `readFromLuaStack` (lines 363-377). -/
def readVector {α : Type} (readValue : lua_State → String → Int → Result α)
    (L : lua_State) (fn : String) (index : Int) : Result (List α) :=
  match isList L index with
  | (false, L) => (.error ("Unexpected non-list type " ++ fn ++ ", expected a list"), L)
  | (true, L) =>
    match luaL_checktype_table L index with
    | .error m => (.error m, L)
    | .ok _ =>
      let len := lua_rawlen L index
      readVector_loop readValue fn index len 1 [] L

/-- The loop of the array branch (lines 390-397), with the capacity check of line 391. -/
def readArrayPair_loop {α : Type} (readValue : lua_State → String → Int → Result α)
    (size : Nat) (fn : String) (index : Int) : Nat → Int → List α → lua_State → Result (List α)
  | 0, _, first, L => (.ok first, L)
  | count + 1, i, first, L =>
    if i > size then (.error ("Array buffer overflow " ++ fn), L)
    else
      let L := lua_rawgeti L index i
      match readValue L fn (-1) with
      | (.error m, L) => (.error m, L)
      | (.ok v, L) =>
        let first := first ++ [v]
        let L := lua_pop L 1
        readArrayPair_loop readValue size fn index count (i + 1) first L

/-- Branch `is_array_size_pair<T>` of `readFromLuaStack` (lines 378-399). -/
def readArrayPair {α : Type} (readValue : lua_State → String → Int → Result α)
    (size : Nat) (M : IntegralType) (L : lua_State) (fn : String) (index : Int) :
    Result (List α × Int) :=
  match isList L index with
  | (false, L) => (.error ("Unexpected non-list type " ++ fn ++ ", expected a list"), L)
  | (true, L) =>
    match luaL_checktype_table L index with
    | .error m => (.error m, L)
    | .ok _ =>
      let len := lua_rawlen L index
      match readArrayPair_loop readValue size fn index len 1 [] L with
      | (.error m, L) => (.error m, L)
      | (.ok first, L) => (.ok (first, M.cast len), L)

/-- The assignment `result[key] = value` on a `std::unordered_map`. -/
def mapAssign {κ α : Type} [DecidableEq κ] (result : List (κ × α)) (key : κ) (value : α) :
    List (κ × α) :=
  if result.any fun e => e.1 = key then
    result.map fun e => if e.1 = key then (key, value) else e
  else result ++ [(key, value)]

/-- The counting pass of the map branch (lines 411-416). -/
def readMap_count : Entries → Nat → lua_State → Nat × lua_State
  | [], count, L =>
    let L := (lua_next L none).2
    (count, L)
  | e :: rest, count, L =>
    let L := (lua_next L (some e)).2
    let count := if lua_type L (-1) != LUA_TNIL then count + 1 else count
    let L := lua_pop L 1
    readMap_count rest count L

/-- The converting pass of the map branch (lines 424-434). -/
def readMap_loop {κ α : Type} [DecidableEq κ]
    (readKey : lua_State → String → Int → Result κ)
    (readValue : lua_State → String → Int → Result α) (fn : String) :
    Entries → List (κ × α) → lua_State → Result (List (κ × α))
  | [], result, L =>
    let L := (lua_next L none).2
    (.ok result, L)
  | e :: rest, result, L =>
    let L := (lua_next L (some e)).2
    if lua_type L (-1) != LUA_TNIL then
      match readKey L fn (-2) with
      | (.error m, L) => (.error m, L)
      | (.ok key, L) =>
        match readValue L fn (-1) with
        | (.error m, L) => (.error m, L)
        | (.ok value, L) =>
          let result := mapAssign result key value
          let L := lua_pop L 1
          readMap_loop readKey readValue fn rest result L
    else
      let L := lua_pop L 1
      readMap_loop readKey readValue fn rest result L

/-- Branch `is_unordered_map<T>` of `readFromLuaStack` (lines 400-436). -/
def readMap {κ α : Type} [DecidableEq κ]
    (readKey : lua_State → String → Int → Result κ)
    (readValue : lua_State → String → Int → Result α)
    (L : lua_State) (fn : String) (index : Int) : Result (List (κ × α)) :=
  match isDict L index with
  | (false, L) => (.error ("Unexpected non-dict type " ++ fn ++ ", expected a dict"), L)
  | (true, L) =>
    let tableIndex := lua_absindex L index
    let L := lua_pushnil L
    let counted := readMap_count (tableEntries L tableIndex) 0 L
    let L := counted.2
    let L := lua_pushnil L
    readMap_loop readKey readValue fn (tableEntries L tableIndex) [] L

/-- Reader of a map key: `readFromLuaStack<KeyType>` at an integral type or `std::string`. -/
def readKey : (K : KeyType) → lua_State → String → Int → Result K.denote
  | .integral T => readIntegral T
  | .string => readString

/-- The `readFromLuaStack<T>` function (lines 267-441): the `if constexpr` chain selects the first
branch whose trait holds for `T`.  `String<N>` and the string and flag pair are recognised before
the array pair; `bool` is taken by the integral branch; an array of another element type has no
branch and reaches the fallback of line 440. -/
def readFromLuaStack : (T : HostType) → lua_State → String → Int → Result T.denote
  | .basic => readBasic
  | .optional T => readOptional (readFromLuaStack T)
  | .integral T => readIntegral T
  | .floating => readFloating
  | .string => readString
  | .array (.integral .char) N => readStringBuf N
  | .array _ _ => fun L _ _ => (.error "Unsupported Lua to C++ type", L)
  | .arrayPair (.integral .char) N .bool => readStringBoolPair N
  | .arrayPair T N M => readArrayPair (readFromLuaStack T) N M
  | .vector T => readVector (readFromLuaStack T)
  | .map K V => readMap (readKey K) (readFromLuaStack V)

/-! ## Pushing host values -/

/-- Branch `std::is_integral_v<T>` of `pushToLuaStack` (lines 468-473): a signed value is
converted to `lua_Integer`, an unsigned one to `lua_Unsigned`, and passed to `lua_pushinteger`. -/
def pushIntegral (T : IntegralType) (L : lua_State) (value : Int) : lua_State :=
  if T.isSigned then lua_pushinteger L (IntegralType.int64.cast value)
  else lua_pushinteger L (IntegralType.uint64.cast value)

/-- Branch `std::is_same_v<T, bool>` of `pushToLuaStack` (lines 482-483).  It comes after the
`std::is_integral_v<T>` branch in the `if constexpr` chain, so no instantiation selects it. -/
def pushBoolBranch (L : lua_State) (value : Int) : lua_State :=
  lua_pushboolean L value

/-- Branch `std::is_same_v<T, BasicLuaType>` of `pushToLuaStack` (lines 446-450): `std::visit`
calls `pushToLuaStack` at the type of the alternative held, which is `lua_Integer`,
`lua_Number`, `bool`, `std::string` or `std::nullopt_t`. -/
def pushBasic (L : lua_State) (value : BasicLuaType) : lua_State :=
  match value with
  | .integer i => pushIntegral .int64 L i
  | .number x => lua_pushnumber L x
  | .boolean b => pushIntegral .bool L (if b then 1 else 0)
  | .string s => lua_pushstring L s
  | .nullopt => lua_pushnil L

/-- Branch `is_optional<T>` of `pushToLuaStack` (lines 454-460). -/
def pushOptional {α : Type} (pushInner : lua_State → α → lua_State)
    (L : lua_State) (value : Option α) : lua_State :=
  match value with
  | some v => pushInner L v
  | none => lua_pushnil L

/-- The element loop of the table branches (lines 486-489 and 492-495): `i` is the position of
the first element of the list, which is stored at key `i + 1`. -/
def pushElements {α : Type} (pushInner : lua_State → α → lua_State) :
    List α → Int → lua_State → lua_State
  | [], _, L => L
  | v :: rest, i, L =>
    let L := pushInner L v
    let L := lua_rawseti L (-2) (i + 1)
    pushElements pushInner rest (i + 1) L

/-- Branch `is_vector<T>::value || is_array<T>::value` of `pushToLuaStack` (lines 484-489), for
the `size` elements of the container. -/
def pushSequence {α : Type} (pushInner : lua_State → α → lua_State)
    (L : lua_State) (size : Nat) (value : List α) : lua_State :=
  let L := lua_createtable L size 0
  pushElements pushInner (value.take size) 0 L

/-- Branch `is_array_size_pair<T>::value` of `pushToLuaStack` (lines 490-496): `value.second`
elements of `value.first` are stored.  The bound is compared as a `size_t`; positions beyond the
elements listed are not read here. -/
def pushArrayPair {α : Type} (pushInner : lua_State → α → lua_State)
    (L : lua_State) (value : List α × Int) : lua_State :=
  let L := lua_createtable L value.2 0
  pushElements pushInner (value.1.take (IntegralType.uint64.cast value.2).toNat) 0 L

/-- Writer of a map key: `pushToLuaStack` at an integral type or `std::string`. -/
def pushKey : (K : KeyType) → lua_State → K.denote → lua_State
  | .integral T => pushIntegral T
  | .string => lua_pushstring

/-- The entry loop of the map branch (lines 463-467). -/
def pushEntries {κ α : Type} (pushK : lua_State → κ → lua_State)
    (pushV : lua_State → α → lua_State) : List (κ × α) → lua_State → lua_State
  | [], L => L
  | (k, v) :: rest, L =>
    let L := pushK L k
    let L := pushV L v
    let L := lua_settable L (-3)
    pushEntries pushK pushV rest L

/-- Branch `is_unordered_map<T>` of `pushToLuaStack` (lines 461-467). -/
def pushMap {κ α : Type} (pushK : lua_State → κ → lua_State)
    (pushV : lua_State → α → lua_State) (L : lua_State) (value : List (κ × α)) : lua_State :=
  let L := lua_createtable L 0 value.length
  pushEntries pushK pushV value L

/-- The `pushToLuaStack<T>` function (lines 444-500): the first branch of the chain whose trait
holds for `T`.  `bool` is taken by the integral branch, `String<N>` by the array branch, and
every pair of an array and an integral member, the string and flag pair included, by the array
pair branch. -/
def pushToLuaStack : (T : HostType) → lua_State → T.denote → lua_State
  | .basic => pushBasic
  | .optional T => pushOptional (pushToLuaStack T)
  | .integral T => pushIntegral T
  | .floating => lua_pushnumber
  | .string => lua_pushstring
  | .array T N => fun L value => pushSequence (pushToLuaStack T) L N value
  | .arrayPair T _ _ => pushArrayPair (pushToLuaStack T)
  | .vector T => fun L value => pushSequence (pushToLuaStack T) L value.length value
  | .map K V => pushMap (pushKey K) (pushToLuaStack V)

/-! ## The call facade -/

def LUA_OK : Int := 0
def LUA_ERRRUN : Int := 2

/-- The `lua_getglobal` function on a `const char*` name: pushes the value of the global of
that name, nil when there is none.  The name is given by the bytes of the host buffer and is
read as a C string. -/
def lua_getglobal (L : lua_State) (name : String) : lua_State :=
  pushValue L (L.globals (cstr name))

/-- The values a call leaves for `nresults` expected results: the first `nresults` values
returned, completed with nil. -/
def adjustResults (results : List LuaValue) (nresults : Nat) : List LuaValue :=
  (results ++ List.replicate nresults LuaValue.nil).take nresults

/-- The `lua_pcall(L, nargs, nresults, 0)` function: the `nargs` topmost slots are the arguments,
the last one on top, and the slot below them is the function.  All of them are popped; the
results are pushed in order, the first one deepest, and `LUA_OK` is returned, or the error object
is pushed and an error status is returned.  What the guest function does is given by
`closures`; it does not modify the globals.  (Calling a value that is not a function is an
error; the facade checks `lua_isfunction` first.) -/
def lua_pcall (L : lua_State) (nargs nresults : Nat) : Int × lua_State :=
  match L.stack.drop nargs with
  | .function p :: rest =>
    match L.closures p (L.stack.take nargs).reverse with
    | .ok results =>
      (LUA_OK, { L with stack := (adjustResults results nresults).reverse ++ rest })
    | .error e => (LUA_ERRRUN, { L with stack := e :: rest })
  | _ :: rest =>
    (LUA_ERRRUN, { L with stack := .string "attempt to call a value that is not a function" :: rest })
  | [] => (LUA_ERRRUN, L)

/-- A host argument of a call: a value together with its type. -/
abbrev HostArg := (T : HostType) × T.denote

/-- The fold `(pushToLuaStack(L, args), ...)`: the arguments are pushed from left to right. -/
def pushArgs : List HostArg → lua_State → lua_State
  | [], L => L
  | ⟨T, v⟩ :: rest, L => pushArgs rest (pushToLuaStack T L v)

/-- A `std::string_view` argument: the characters of the view, and the bytes that follow them in
memory up to the first NUL byte after the view.  `following` is empty when the view is followed
by a NUL byte, as the view of a string literal or of a `std::string` is. -/
structure string_view where
  content : String
  following : String

/-- The bytes found at the pointer `data()` of a view, from its first character on.  The header
passes this pointer where a zero-terminated string is expected, so that the string read there
stops at the first NUL byte, inside the view or after it. -/
def string_view.data (v : string_view) : String :=
  v.content ++ v.following

/-- The `what()` of a `std::runtime_error` built from a `std::string`: a pointer to the bytes of
the message, which is read as a zero-terminated string. -/
def what (message : String) : String :=
  cstr message

/-- The label `snprintf(debugstr, sizeof(debugstr), "returned by %s()", functionName.data())`,
held in a buffer of 255 bytes. -/
def returnLabel (functionName : String) : String :=
  String.mk (("returned by " ++ cstr functionName ++ "()").data.take 254)

/-- The `callVoid` function (lines 519-536).  The name is looked up through
`functionName.data()`, and the message of an unresolved name is built from
`std::string(functionName)`, the characters of the view.  The message of a failed call is
`lua_tostring(L, -1)`; an error object that is not a string is not converted here. -/
def callVoid (L : lua_State) (functionName : string_view) (args : List HostArg) :
    Result Unit :=
  let L := lua_getglobal L functionName.data
  if !lua_isfunction L (-1) then
    let L := lua_pop L 1
    (.error (what ("Function '" ++ functionName.content ++ "' is not a valid Lua function.")),
      L)
  else
    let L := pushArgs args L
    let status := lua_pcall L args.length 0
    let L := status.2
    if status.1 != LUA_OK then
      (.error (std_string (lua_tostring L (-1))), L)
    else (.ok (), L)

/-- The `call` function (lines 539-563), for the return type `T`. -/
def call (T : HostType) (L : lua_State) (functionName : string_view)
    (args : List HostArg) :
    Result T.denote :=
  let L := lua_getglobal L functionName.data
  if !lua_isfunction L (-1) then
    let L := lua_pop L 1
    (.error (what ("Function '" ++ functionName.content ++ "' is not a valid Lua function.")),
      L)
  else
    let L := pushArgs args L
    let status := lua_pcall L args.length 1
    let L := status.2
    if status.1 != LUA_OK then
      (.error (std_string (lua_tostring L (-1))), L)
    else
      let debugstr := returnLabel functionName.data
      match readFromLuaStack T L debugstr (-1) with
      | (.error m, L) => (.error m, L)
      | (.ok result, L) => (.ok result, lua_pop L 1)

/-- The values of a `std::tuple<ReturnTypes...>`. -/
@[reducible] def TupleDenote : List HostType → Type
  | [] => Unit
  | T :: Ts => T.denote × TupleDenote Ts

/-- The `processMultiReturnImpl` function (lines 512-515): the return value of position `Is` is
read at the offset `-(numReturns - Is)`.  The conversions are the arguments of one call of
`std::make_tuple`, whose order of evaluation C++ leaves open; they are made from left to right
here. -/
def processMultiReturnImpl : (Ts : List HostType) → lua_State → Int → String → Nat →
    Result (TupleDenote Ts)
  | [], L, _, _, _ => (.ok (), L)
  | T :: Ts, L, numReturns, fn, Is =>
    match readFromLuaStack T L fn (-(numReturns - Is)) with
    | (.error m, L) => (.error m, L)
    | (.ok v, L) =>
      match processMultiReturnImpl Ts L numReturns fn (Is + 1) with
      | (.error m, L) => (.error m, L)
      | (.ok vs, L) => (.ok (v, vs), L)

/-- The `processMultiReturn` function (lines 507-510). -/
def processMultiReturn (Ts : List HostType) (L : lua_State) (fn : String) (numReturns : Int) :
    Result (TupleDenote Ts) :=
  processMultiReturnImpl Ts L numReturns fn 0

/-- The `callMultiReturn` function (lines 566-592), for the return types `Ts`. -/
def callMultiReturn (Ts : List HostType) (L : lua_State) (functionName : string_view)
    (args : List HostArg) : Result (TupleDenote Ts) :=
  let L := lua_getglobal L functionName.data
  if !lua_isfunction L (-1) then
    let L := lua_pop L 1
    (.error (what ("Function '" ++ functionName.content ++ "' is not a valid Lua function.")),
      L)
  else
    let L := pushArgs args L
    let numReturns := Ts.length
    let status := lua_pcall L args.length numReturns
    let L := status.2
    if status.1 != LUA_OK then
      (.error (std_string (lua_tostring L (-1))), L)
    else
      let debugstr := returnLabel functionName.data
      match processMultiReturn Ts L debugstr numReturns with
      | (.error m, L) => (.error m, L)
      | (.ok result, L) => (.ok result, lua_pop L numReturns)

/-! ## Specification-side definitions -/

/-- An index the API accepts for a stack slot: positive, or negative and within the frame. -/
def AcceptableIndex (L : lua_State) (idx : Int) : Prop :=
  0 < idx ∨ (idx < 0 ∧ -idx ≤ lua_gettop L)

instance (L : lua_State) (idx : Int) : Decidable (AcceptableIndex L idx) := by
  unfold AcceptableIndex; infer_instance

/-- Outcome of the key loop of `isList` on the entries still to be enumerated: every key is an
integer at least 1, and the largest key seen, starting from `maxKey`, is the length. -/
def listKeysSpec (tableLength : Int) : Entries → Int → Bool
  | [], maxKey => maxKey == tableLength
  | (.integer key, _) :: rest, maxKey =>
    if key < 1 then false else listKeysSpec tableLength rest (if key > maxKey then key else maxKey)
  | _ :: _, _ => false

/-- What `isList` answers for the content of a slot. -/
def isListSpec : Option LuaValue → Bool
  | some (.table es len) => len == 0 || listKeysSpec len es 0
  | _ => false

/-- Outcome of the key loop of `isDict`: no key is nil. -/
def dictKeysSpec : Entries → Bool
  | [] => true
  | (.nil, _) :: _ => false
  | _ :: rest => dictKeysSpec rest

/-- What `isDict` answers for the content of a slot. -/
def isDictSpec : Option LuaValue → Bool
  | some (.table es _) => dictKeysSpec es
  | _ => false

/-- A key that is an integer at least 1. -/
def PositiveIntegerKey (k : LuaValue) : Prop :=
  ∃ i : Int, k = .integer i ∧ 1 ≤ i

/-- The largest integer key among the entries, 0 when there is none above 0. -/
def largestKey : Entries → Int
  | [] => 0
  | (.integer i, _) :: rest => max i (largestKey rest)
  | _ :: rest => largestKey rest

/-- Whether a value is nil. -/
def LuaValue.isNil : LuaValue → Bool
  | .nil => true
  | _ => false

/-- A length primitive: the search for the smallest border, `fuel` keys from `n + 1` on. -/
def leastBorderFrom (es : Entries) : Nat → Nat → Nat
  | 0, n => n
  | fuel + 1, n =>
    if (tableGet es (.integer ((n : Int) + 1))).isNil then n else leastBorderFrom es fuel (n + 1)

/-- A length primitive: the smallest border of the table. -/
def leastBorder (es : Entries) : Nat :=
  leastBorderFrom es es.length 0

/-- A runtime instance with the given stack, no global and the smallest border as length
primitive. -/
def stateOf (stack : List LuaValue) : lua_State :=
  { stack := stack, getn := leastBorder, globals := fun _ => .nil, closures := fun _ _ => .ok [] }

/-- The table with keys 1, 2, 3 and length 3. -/
def sequenceTable : LuaValue :=
  .table [(.integer 1, .boolean true), (.integer 2, .boolean true), (.integer 3, .boolean true)] 3

/-- The table with keys 1 and 3 and reported length 2. -/
def gapTable : LuaValue :=
  .table [(.integer 1, .boolean true), (.integer 3, .boolean true)] 2

/-- A table whose only key is a string; its length is 0. -/
def stringKeyTable : LuaValue :=
  .table [(.string "a", .integer 1)] 0

/-- The `lua_Integer` that `pushToLuaStack` stores for a value of an integral type. -/
def integralSlot (T : IntegralType) (v : Int) : Int :=
  wrapSigned 64 (if T.isSigned then IntegralType.int64.cast v else IntegralType.uint64.cast v)

/-- Entries after storing the listed values under the consecutive keys `i + 1`, `i + 2`, ... -/
def storeAll : Entries → Int → List LuaValue → Entries
  | es, _, [] => es
  | es, i, v :: rest => storeAll (tableSet es (.integer (i + 1)) v) (i + 1) rest

/-- The entries of a sequence: the listed values under the keys `i + 1`, `i + 2`, ... -/
def sequenceEntries : Int → List LuaValue → Entries
  | _, [] => []
  | i, v :: rest => (.integer (i + 1), v) :: sequenceEntries (i + 1) rest

/-- The alternatives of `BasicLuaType` other than `bool` whose value the runtime can hold as it
is: an integer in the range of `lua_Integer`, a float, a string without NUL byte, and
`std::nullopt`. -/
def BasicLuaType.Plain : BasicLuaType → Prop
  | .integer i => -(2 : Int) ^ 63 ≤ i ∧ i < (2 : Int) ^ 63
  | .number _ => True
  | .boolean _ => False
  | .string s => ∀ c ∈ s.data, c ≠ Char.ofNat 0
  | .nullopt => True

/-- Entries after storing the listed key/value pairs one after the other. -/
def storePairs : Entries → List (LuaValue × LuaValue) → Entries
  | es, [] => es
  | es, (k, v) :: rest => storePairs (tableSet es k v) rest

/-- The slot `pushToLuaStack` fills for an optional value of an integral type. -/
def optionalSlot (T : IntegralType) : Option Int → LuaValue
  | some x => .integer (integralSlot T x)
  | none => .nil

/-- A reader that, when it returns a value, leaves the state of the runtime as it found it. -/
def PreservesState {α : Type} (read : lua_State → String → Int → Result α) : Prop :=
  ∀ L fn index v L', read L fn index = (.ok v, L') → L' = L

/-- The entries left by storing the listed values under the keys `i + 1`, `i + 2`, ... of an
empty table: a nil value leaves no entry. -/
def sparseEntries : Int → List LuaValue → Entries
  | _, [] => []
  | i, v :: rest =>
    if v.isNil then sparseEntries (i + 1) rest
    else (.integer (i + 1), v) :: sparseEntries (i + 1) rest

/-- The view of a zero-terminated string: its characters are followed by a NUL byte. -/
def viewOf (name : String) : string_view :=
  { content := name, following := "" }

/-- A runtime instance with an empty stack whose global `pair` is a function returning the
integer 10 and the string `ok`, in that order. -/
def pairState : lua_State :=
  { stack := [], getn := leastBorder,
    globals := fun name => if name = "pair" then .function 0 else .nil,
    closures := fun _ _ => .ok [.integer 10, .string "ok"] }

/-- The slot `pushToLuaStack` fills for a `BasicLuaType` value. -/
def encodeBasic : BasicLuaType → LuaValue
  | .integer i => .integer (integralSlot .int64 i)
  | .number x => .number x
  | .boolean b => .integer (integralSlot .bool (if b then 1 else 0))
  | .string s => .string (cstr s)
  | .nullopt => .nil

/-- The slot `pushToLuaStack` fills for a map key. -/
def encodeKey : (K : KeyType) → K.denote → LuaValue
  | .integral I, k => .integer (integralSlot I k)
  | .string, k => .string (cstr k)

/-- The value `pushToLuaStack` pushes for a host value, on a runtime whose length primitive is
`g`: a scalar, or the table built by storing the elements one after the other. -/
def encodeValue (g : Entries → Nat) : (T : HostType) → T.denote → LuaValue
  | .basic, v => encodeBasic v
  | .optional T, v =>
    match v with
    | some x => encodeValue g T x
    | none => .nil
  | .integral I, v => .integer (integralSlot I v)
  | .floating, x => .number x
  | .string, s => .string (cstr s)
  | .array T N, xs =>
    .table (storeAll [] 0 ((xs.take N).map (encodeValue g T)))
      (g (storeAll [] 0 ((xs.take N).map (encodeValue g T))))
  | .arrayPair T _ _, p =>
    .table (storeAll [] 0 ((p.1.take (IntegralType.uint64.cast p.2).toNat).map (encodeValue g T)))
      (g (storeAll [] 0
        ((p.1.take (IntegralType.uint64.cast p.2).toNat).map (encodeValue g T))))
  | .vector T, xs =>
    .table (storeAll [] 0 (xs.map (encodeValue g T)))
      (g (storeAll [] 0 (xs.map (encodeValue g T))))
  | .map K V, m =>
    .table (storePairs [] (m.map fun e => (encodeKey K e.1, encodeValue g V e.2)))
      (g (storePairs [] (m.map fun e => (encodeKey K e.1, encodeValue g V e.2))))

/-- The value pushed for an argument of a call. -/
def encodeArg (g : Entries → Nat) (a : HostArg) : LuaValue :=
  encodeValue g a.1 a.2

/-- The conversions `processMultiReturnImpl` asks for, each made on its own on the same state:
the component of position `Is` is `readFromLuaStack` at the offset `-(numReturns - Is)`. -/
def readComponents : (Ts : List HostType) → lua_State → Int → String → Nat →
    Except String (TupleDenote Ts)
  | [], _, _, _, _ => .ok ()
  | T :: Ts, S, numReturns, fn, Is =>
    match (readFromLuaStack T S fn (-(numReturns - Is))).1 with
    | .error m => .error m
    | .ok v =>
      match readComponents Ts S numReturns fn (Is + 1) with
      | .error m => .error m
      | .ok vs => .ok (v, vs)

/-- The value the specification names for a narrowing read: `v` reduced modulo `2^w`, read as an
unsigned number of `w` bits, or as a two's complement number of `w` bits for a signed type. -/
def reducedModulo (T : IntegralType) (w : Nat) (v : Int) : Int :=
  let r := v % (2 : Int) ^ w
  if T.isSigned ∧ (2 : Int) ^ (w - 1) ≤ r then r - (2 : Int) ^ w else r

@[simp] theorem lua_pop_zero (L : lua_State) : lua_pop L 0 = L := rfl

@[simp] theorem lua_pop_pushValue (L : lua_State) (v : LuaValue) :
    lua_pop (pushValue L v) 1 = L := rfl

@[simp] theorem lua_pop_pushValue_two (L : lua_State) (k v : LuaValue) :
    lua_pop (pushValue (pushValue L k) v) 2 = L := rfl

@[simp] theorem index2value_top (L : lua_State) (v : LuaValue) :
    index2value (pushValue L v) (-1) = some v := by
  simp [index2value, stackPos, pushValue, lua_gettop]

@[simp] theorem index2value_second (L : lua_State) (k v : LuaValue) :
    index2value (pushValue (pushValue L k) v) (-2) = some k := by
  have h : (2 : Int) ≤ (L.stack.length : Int) + 1 + 1 := by omega
  simp [index2value, stackPos, pushValue, lua_gettop, h]

theorem index2value_absindex (L : lua_State) (idx : Int) (hacc : AcceptableIndex L idx) :
    index2value L (lua_absindex L idx) = index2value L idx := by
  unfold AcceptableIndex lua_gettop at hacc
  unfold index2value stackPos lua_absindex lua_gettop
  by_cases h : idx > 0
  · simp [h]
  · have h2 : idx < 0 ∧ -idx ≤ (L.stack.length : Int) := by omega
    have h3 : 0 < (L.stack.length : Int) + 1 + idx ∧
        (L.stack.length : Int) + 1 + idx ≤ L.stack.length := by omega
    have h4 : ¬ (0 < idx ∧ idx ≤ (L.stack.length : Int)) := by omega
    simp only [h, h3, h4, h2, and_self, if_true, if_false]
    congr 1
    omega

theorem absindex_pos (L : lua_State) (idx : Int) (hacc : AcceptableIndex L idx) :
    0 < lua_absindex L idx := by
  unfold AcceptableIndex at hacc
  unfold lua_absindex
  by_cases h : idx > 0
  · simp only [h, if_true]
  · simp only [h, if_false]; omega

theorem index_le_top (L : lua_State) (a : Int) (v : LuaValue) (ha : 0 < a)
    (h : index2value L a = some v) : a ≤ lua_gettop L := by
  unfold index2value stackPos at h
  by_cases h1 : 0 < a ∧ a ≤ lua_gettop L
  · exact h1.2
  · have h2 : ¬ (a < 0 ∧ -a ≤ lua_gettop L) := by omega
    simp [h1, h2] at h

theorem index2value_push_abs (L : lua_State) (v : LuaValue) (i : Int)
    (h : 0 < i ∧ i ≤ lua_gettop L) :
    index2value (pushValue L v) i = index2value L i := by
  unfold index2value stackPos lua_gettop pushValue
  unfold lua_gettop at h
  have h1 : 0 < i ∧ i ≤ ((v :: L.stack).length : Int) := by
    simp only [List.length_cons]; push_cast; omega
  simp only [h1, h, and_self, if_true]
  have : (v :: L.stack).length - i.toNat = (L.stack.length - i.toNat) + 1 := by
    simp only [List.length_cons]; omega
  rw [this]
  simp

theorem tableEntries_push_abs (L : lua_State) (v : LuaValue) (i : Int)
    (h : 0 < i ∧ i ≤ lua_gettop L) :
    tableEntries (pushValue L v) i = tableEntries L i := by
  unfold tableEntries
  rw [index2value_push_abs L v i h]

/-! ## The shape probes in closed form -/

theorem isList_loop_eq (tableLength : Int) (es : Entries) (maxKey : Int) (L : lua_State)
    (x : LuaValue) :
    isList_loop tableLength es maxKey (pushValue L x) = (listKeysSpec tableLength es maxKey, L) := by
  induction es generalizing maxKey x with
  | nil => simp [isList_loop, listKeysSpec, lua_next]
  | cons e rest ih =>
    obtain ⟨k, v⟩ := e
    cases k <;>
      simp [isList_loop, listKeysSpec, lua_next, lua_isinteger, lua_tointeger, ih]
    split <;> simp [*]

theorem lua_istable_iff (L : lua_State) (idx : Int) :
    lua_istable L idx = true ↔ ∃ es len, index2value L idx = some (.table es len) := by
  unfold lua_istable lua_type
  cases h : index2value L idx with
  | none => simp [LUA_TNONE, LUA_TTABLE]
  | some v => cases v <;> simp [LuaValue.typeTag, LUA_TTABLE, LUA_TNIL, LUA_TBOOLEAN,
      LUA_TLIGHTUSERDATA, LUA_TNUMBER, LUA_TSTRING, LUA_TFUNCTION, LUA_TUSERDATA, LUA_TTHREAD]

theorem isList_eq (L : lua_State) (index : Int) (hacc : AcceptableIndex L index) :
    isList L index = (isListSpec (index2value L index), L) := by
  have hpos := absindex_pos L index hacc
  rw [← index2value_absindex L index hacc]
  unfold isList
  generalize lua_absindex L index = a at hpos ⊢
  by_cases ht : lua_istable L a = true
  · obtain ⟨es, len, hs⟩ := (lua_istable_iff L a).1 ht
    have hle := index_le_top L a _ hpos hs
    simp only [ht, Bool.not_true, Bool.false_eq_true, if_false, hs, isListSpec]
    simp only [lua_len, lua_tointeger, index2value_top, lua_pop_pushValue, hs, objLength,
      lua_pushnil, isList_loop_eq, tableEntries_push_abs L _ a ⟨hpos, hle⟩]
    by_cases h0 : len = 0
    · simp [h0]
    · simp [h0, tableEntries, hs]
  · have hn : ∀ es len, index2value L a ≠ some (.table es len) := by
      intro es len h
      exact ht ((lua_istable_iff L a).2 ⟨es, len, h⟩)
    simp only [ht, Bool.not_false, if_true]
    cases h : index2value L a with
    | none => simp [isListSpec]
    | some v =>
      cases v <;> simp [isListSpec]
      exact absurd h (hn _ _)

theorem isDict_loop_eq (es : Entries) (L : lua_State) (x : LuaValue) :
    isDict_loop es (pushValue L x) = (dictKeysSpec es, L) := by
  induction es generalizing x with
  | nil => simp [isDict_loop, dictKeysSpec, lua_next]
  | cons e rest ih =>
    obtain ⟨k, v⟩ := e
    cases k <;>
      simp [isDict_loop, dictKeysSpec, lua_next, lua_type, LuaValue.typeTag, ih, LUA_TNIL,
        LUA_TBOOLEAN, LUA_TLIGHTUSERDATA, LUA_TNUMBER, LUA_TSTRING, LUA_TFUNCTION, LUA_TUSERDATA,
        LUA_TTHREAD, LUA_TTABLE]

theorem isDict_eq (L : lua_State) (index : Int) (hacc : AcceptableIndex L index) :
    isDict L index = (isDictSpec (index2value L index), L) := by
  have hpos := absindex_pos L index hacc
  rw [← index2value_absindex L index hacc]
  unfold isDict
  generalize lua_absindex L index = a at hpos ⊢
  by_cases ht : lua_istable L a = true
  · obtain ⟨es, len, hs⟩ := (lua_istable_iff L a).1 ht
    have hle := index_le_top L a _ hpos hs
    simp only [ht, Bool.not_true, Bool.false_eq_true, if_false, hs, isDictSpec]
    simp only [lua_pushnil, isDict_loop_eq, tableEntries_push_abs L _ a ⟨hpos, hle⟩]
    simp [tableEntries, hs]
  · have hn : ∀ es len, index2value L a ≠ some (.table es len) := by
      intro es len h
      exact ht ((lua_istable_iff L a).2 ⟨es, len, h⟩)
    simp only [ht, Bool.not_false, if_true]
    cases h : index2value L a with
    | none => simp [isDictSpec]
    | some v =>
      cases v <;> simp [isDictSpec]
      exact absurd h (hn _ _)

/-! ## Shape of a table: what the probes decide -/

theorem largestKey_nonneg (es : Entries) : 0 ≤ largestKey es := by
  induction es with
  | nil => simp [largestKey]
  | cons e rest ih =>
    obtain ⟨k, v⟩ := e
    cases k <;> simp [largestKey, ih]

theorem listKeysSpec_iff (len : Int) (es : Entries) (m : Int) (hm : 0 ≤ m) :
    listKeysSpec len es m = true ↔
      (∀ e ∈ es, PositiveIntegerKey e.1) ∧ max m (largestKey es) = len := by
  induction es generalizing m with
  | nil => simp [listKeysSpec, largestKey, hm]
  | cons e rest ih =>
    obtain ⟨k, v⟩ := e
    have h0 := largestKey_nonneg rest
    cases k with
    | integer i =>
      by_cases hi : i < 1
      · simp only [listKeysSpec, hi, if_true, Bool.false_eq_true, false_iff, not_and]
        intro h
        obtain ⟨j, hj, hj1⟩ := h _ (List.mem_cons_self _ _)
        simp only [LuaValue.integer.injEq] at hj
        omega
      · simp only [listKeysSpec, hi, if_false, List.mem_cons, forall_eq_or_imp, largestKey]
        rw [ih _ (by split <;> omega)]
        have hp : PositiveIntegerKey (LuaValue.integer i) := ⟨i, rfl, by omega⟩
        simp only [hp, true_and]
        have : max (if i > m then i else m) (largestKey rest) = max m (max i (largestKey rest)) := by
          split <;> omega
        rw [this]
    | _ =>
      simp only [listKeysSpec, Bool.false_eq_true, false_iff, not_and]
      intro h
      obtain ⟨j, hj, _⟩ := h _ (List.mem_cons_self _ _)
      simp at hj

theorem isListSpec_table (es : Entries) (len : Nat) :
    isListSpec (some (.table es len)) = true ↔
      len = 0 ∨ ((∀ e ∈ es, PositiveIntegerKey e.1) ∧ largestKey es = (len : Int)) := by
  have h0 := largestKey_nonneg es
  simp only [isListSpec, Bool.or_eq_true, beq_iff_eq, listKeysSpec_iff _ _ 0 (le_refl 0),
    max_eq_right h0]

theorem dictKeysSpec_eq_false (es : Entries) :
    dictKeysSpec es = false ↔ ∃ e ∈ es, e.1 = LuaValue.nil := by
  induction es with
  | nil => simp [dictKeysSpec]
  | cons e rest ih =>
    obtain ⟨k, v⟩ := e
    cases k <;> simp [dictKeysSpec, ih]

/-- C5. For a stack and an index the API accepts, `isList` answers false when the slot is not a
table; on a table whose reported length is 0 it answers true; on a table of reported length
`len ≠ 0` it answers true exactly when every enumerated key is an integer at least 1 and the
largest key is `len`. -/
theorem isList_decision (L : lua_State) (index : Int) (hacc : AcceptableIndex L index) :
    ((∀ es len, index2value L index ≠ some (.table es len)) → (isList L index).1 = false) ∧
    (∀ es len, index2value L index = some (.table es len) →
      (len = 0 → (isList L index).1 = true) ∧
      (len ≠ 0 → ((isList L index).1 = true ↔
        (∀ e ∈ es, PositiveIntegerKey e.1) ∧ largestKey es = (len : Int)))) := by
  rw [isList_eq L index hacc]
  refine ⟨?_, ?_⟩
  · intro h
    cases hv : index2value L index with
    | none => rfl
    | some v =>
      cases v <;> first | rfl | exact absurd hv (h _ _)
  · intro es len hs
    rw [hs]
    refine ⟨fun h0 => (isListSpec_table es len).2 (Or.inl h0), fun hne => ?_⟩
    rw [isListSpec_table]
    simp [hne]

/-- C5, on the two tables the specification names: keys 1, 2, 3 with length 3 make a list; keys
1 and 3 with reported length 2 do not. -/
theorem isList_decision_witness :
    AcceptableIndex (stateOf [gapTable]) (-1) ∧
    (isList (stateOf [sequenceTable]) (-1)).1 = true ∧
    (isList (stateOf [gapTable]) (-1)).1 ≠ true := by
  refine ⟨by decide, ?_, ?_⟩
  · refine (((isList_decision (stateOf [sequenceTable]) (-1) (by decide)).2
      [(.integer 1, .boolean true), (.integer 2, .boolean true), (.integer 3, .boolean true)] 3 (by rfl)).2
      (by decide)).2 ⟨?_, ?_⟩
    · intro e he
      simp only [List.mem_cons, List.mem_singleton, List.not_mem_nil, or_false] at he
      rcases he with rfl | rfl | rfl
      · exact ⟨1, rfl, by decide⟩
      · exact ⟨2, rfl, by decide⟩
      · exact ⟨3, rfl, by decide⟩
    · decide
  · intro h
    have h2 := ((((isList_decision (stateOf [gapTable]) (-1) (by decide)).2
      [(.integer 1, .boolean true), (.integer 3, .boolean true)] 2 (by rfl)).2
      (by decide)).1 h).2
    revert h2
    decide

/-- C6, as stated, fails: a table whose only key is a string and whose reported length is 0 is
accepted by `isList`, although not every key is a positive integer. -/
theorem isList_string_key_counterexample :
    index2value (stateOf [stringKeyTable]) (-1)
      = some (.table [(.string "a", .integer 1)] 0) ∧
    (isList (stateOf [stringKeyTable]) (-1)).1 = true ∧
    ¬ ((∀ e ∈ [(LuaValue.string "a", LuaValue.integer 1)], PositiveIntegerKey e.1) ∧
      largestKey [(LuaValue.string "a", LuaValue.integer 1)] = ((0 : Nat) : Int)) := by
  refine ⟨rfl, by decide, ?_⟩
  rintro ⟨h, _⟩
  obtain ⟨i, hi, _⟩ := h _ (List.mem_singleton_self _)
  simp at hi

/-- C6, amended. For a table slot, `isList` answers true exactly when the reported length is 0,
or every key is a positive integer and the largest key is the reported length. -/
theorem isList_characterisation (L : lua_State) (index : Int) (es : Entries) (len : Nat)
    (hacc : AcceptableIndex L index) (hs : index2value L index = some (.table es len)) :
    (isList L index).1 = true ↔
      len = 0 ∨ ((∀ e ∈ es, PositiveIntegerKey e.1) ∧ largestKey es = (len : Int)) := by
  rw [isList_eq L index hacc, hs]
  exact isListSpec_table es len

/-- C6, amended, on a table with a string key and reported length 0. -/
theorem isList_characterisation_witness :
    AcceptableIndex (stateOf [stringKeyTable]) (-1) ∧
    ((isList (stateOf [stringKeyTable]) (-1)).1 = true ↔
      (0 : Nat) = 0 ∨ ((∀ e ∈ [(LuaValue.string "a", LuaValue.integer 1)],
        PositiveIntegerKey e.1) ∧
        largestKey [(LuaValue.string "a", LuaValue.integer 1)] = ((0 : Nat) : Int))) :=
  ⟨by decide, isList_characterisation (stateOf [stringKeyTable]) (-1) _ 0 (by decide) rfl⟩

/-- C7. For a stack and an index the API accepts, `isDict` answers false when the slot is not a
table, and on a table it answers false exactly when some enumerated key is nil; so a table
without a nil key is accepted, and the empty table is accepted by `isList` and by `isDict`. -/
theorem isDict_decision (L : lua_State) (index : Int) (hacc : AcceptableIndex L index) :
    ((∀ es len, index2value L index ≠ some (.table es len)) → (isDict L index).1 = false) ∧
    (∀ es len, index2value L index = some (.table es len) →
      (((isDict L index).1 = false ↔ ∃ e ∈ es, e.1 = LuaValue.nil) ∧
       ((∀ e ∈ es, e.1 ≠ LuaValue.nil) → (isDict L index).1 = true))) ∧
    (index2value L index = some (.table [] 0) →
      (isList L index).1 = true ∧ (isDict L index).1 = true) := by
  rw [isDict_eq L index hacc, isList_eq L index hacc]
  refine ⟨?_, ?_, fun h => by rw [h]; exact ⟨rfl, rfl⟩⟩
  · intro h
    cases hv : index2value L index with
    | none => rfl
    | some v =>
      cases v <;> first | rfl | exact absurd hv (h _ _)
  · intro es len hs
    rw [hs]
    simp only [isDictSpec]
    refine ⟨dictKeysSpec_eq_false es, fun h => ?_⟩
    cases hd : dictKeysSpec es with
    | true => rfl
    | false =>
      obtain ⟨e, he, hnil⟩ := (dictKeysSpec_eq_false es).1 hd
      exact absurd hnil (h e he)

/-- C7, on the tables the specification names: the table with keys 1 and 3 is map-shaped, and
the empty table is list-shaped and map-shaped at once. -/
theorem isDict_decision_witness :
    AcceptableIndex (stateOf [.table [] 0]) (-1) ∧
    (isDict (stateOf [gapTable]) (-1)).1 = true ∧
    (isDict (stateOf [.table [] 0]) (-1)).1 = true ∧
    (isList (stateOf [.table [] 0]) (-1)).1 = true := by
  refine ⟨by decide, ?_, ?_,
    ((isDict_decision (stateOf [.table [] 0]) (-1) (by decide)).2.2 (by rfl)).1⟩
  · refine (((isDict_decision (stateOf [gapTable]) (-1) (by decide)).2.1
      [(.integer 1, .boolean true), (.integer 3, .boolean true)] 2 (by rfl)).2) ?_
    intro e he
    simp only [List.mem_cons, List.mem_singleton, List.not_mem_nil, or_false] at he
    rcases he with rfl | rfl <;> simp
  · exact ((isDict_decision (stateOf [.table [] 0]) (-1) (by decide)).2.2 (by rfl)).2

/-! ## Scalar conversions -/

theorem cstr_eq_self (s : String) (h : ∀ c ∈ s.data, c ≠ Char.ofNat 0) : cstr s = s := by
  unfold cstr
  have : s.data.takeWhile (fun c => c != Char.ofNat 0) = s.data := by
    rw [List.takeWhile_eq_self_iff]
    intro c hc
    simpa using h c hc
  rw [this]

theorem lua_get_type_cases (L : lua_State) (index : Int) :
    lua_get_type L index =
      match index2value L index with
      | none => LUA_TNONE
      | some (.integer _) => LUA_TINTEGER
      | some v => v.typeTag := by
  unfold lua_get_type lua_type lua_isinteger
  cases h : index2value L index with
  | none => simp [LUA_TNONE, LUA_TNUMBER]
  | some v => cases v <;> simp [LuaValue.typeTag, LUA_TNUMBER, LUA_TNIL, LUA_TBOOLEAN,
      LUA_TLIGHTUSERDATA, LUA_TSTRING, LUA_TFUNCTION, LUA_TUSERDATA, LUA_TTHREAD, LUA_TTABLE]

theorem cast_of_inRange (T : IntegralType) (v : Int) (hv : T.InRange v) : T.cast v = v := by
  unfold IntegralType.InRange IntegralType.minValue IntegralType.maxValue at hv
  cases T <;>
    simp [IntegralType.isSigned, IntegralType.bits] at hv <;>
    simp [IntegralType.cast, IntegralType.isSigned, IntegralType.bits, wrapSigned, wrapUnsigned] <;>
    omega

theorem cast_bool_value (T : IntegralType) (b : Bool) :
    T.cast (if b then 1 else 0) = if b then 1 else 0 := by
  cases T <;> cases b <;> decide

/-- C8. For every integral type `T` and every slot, `readFromLuaStack<T>` returns a value exactly
when the tag of the slot is integer, float or bool.  An integer slot holding a value of `T` gives
that value, a bool slot gives 0 for false and 1 for true, a nil slot fails with
`Unexpected nil <label>, expected an integer`, and string and table slots fail. -/
theorem readIntegral_policy (T : IntegralType) (L : lua_State) (fn : String) (index : Int) :
    ((∃ v, (readFromLuaStack (.integral T) L fn index).1 = .ok v) ↔
      (lua_get_type L index = LUA_TINTEGER ∨ lua_get_type L index = LUA_TNUMBER ∨
        lua_get_type L index = LUA_TBOOLEAN)) ∧
    (∀ v, index2value L index = some (.integer v) → T.InRange v →
      readFromLuaStack (.integral T) L fn index = (.ok v, L)) ∧
    (∀ b, index2value L index = some (.boolean b) →
      readFromLuaStack (.integral T) L fn index = (.ok (if b then 1 else 0), L)) ∧
    (index2value L index = some .nil →
      readFromLuaStack (.integral T) L fn index
        = (.error ("Unexpected nil " ++ fn ++ ", expected an integer"), L)) ∧
    (∀ s, index2value L index = some (.string s) →
      ∃ m, readFromLuaStack (.integral T) L fn index = (.error m, L)) ∧
    (∀ es len, index2value L index = some (.table es len) →
      ∃ m, readFromLuaStack (.integral T) L fn index = (.error m, L)) := by
  simp only [readFromLuaStack, readIntegral, lua_get_type_cases]
  refine ⟨?_, ?_, ?_, ?_, ?_, ?_⟩
  · cases h : index2value L index with
    | none => simp [LUA_TNONE, LUA_TNUMBER, LUA_TNIL, LUA_TBOOLEAN, LUA_TSTRING, LUA_TINTEGER]
    | some v => cases v <;> simp [LuaValue.typeTag, LUA_TNUMBER, LUA_TNIL, LUA_TBOOLEAN,
        LUA_TLIGHTUSERDATA, LUA_TSTRING, LUA_TFUNCTION, LUA_TUSERDATA, LUA_TTHREAD, LUA_TTABLE,
        LUA_TINTEGER]
  · intro v hs hv
    simp [hs, lua_tointeger, cast_of_inRange T v hv, LUA_TINTEGER, LUA_TNIL]
  · intro b hs
    have := cast_bool_value T b
    simp [hs, lua_toboolean, LuaValue.typeTag, LUA_TINTEGER, LUA_TNIL, LUA_TBOOLEAN, LUA_TNUMBER,
      this]
  · intro hs
    simp [hs, LuaValue.typeTag, LUA_TNIL]
  · intro s hs
    simp [hs, LuaValue.typeTag, LUA_TINTEGER, LUA_TNIL, LUA_TBOOLEAN, LUA_TNUMBER, LUA_TSTRING]
  · intro es len hs
    simp [hs, LuaValue.typeTag, LUA_TINTEGER, LUA_TNIL, LUA_TBOOLEAN, LUA_TNUMBER, LUA_TSTRING,
      LUA_TTABLE]

/-- C9, at a float slot holding 1.5: `readFromLuaStack<bool>` is served by the integral branch
and returns true, while the branch written for `bool` rejects a float.  More generally the read
returns a value on every float slot: false for a zero, true otherwise. -/
theorem readBool_float_slot :
    lua_get_type (stateOf [.number ⟨0x3FF8000000000000⟩]) (-1) = LUA_TNUMBER ∧
    (readFromLuaStack (.integral .bool) (stateOf [.number ⟨0x3FF8000000000000⟩]) "x" (-1)).1
      = .ok 1 ∧
    (readBoolBranch (stateOf [.number ⟨0x3FF8000000000000⟩]) "x" (-1)).1
      = .error "Unexpected float x, expected a bool" ∧
    (∀ (L : lua_State) (fn : String) (index : Int) (x : LuaNumber),
      index2value L index = some (.number x) →
      readFromLuaStack (.integral .bool) L fn index = (.ok (if x.isZero then 0 else 1), L)) := by
  refine ⟨by decide, by rfl, by rfl, ?_⟩
  intro L fn index x hs
  simp [readFromLuaStack, readIntegral, lua_get_type_cases, hs, LuaValue.typeTag,
    lua_tonumber, IntegralType.castNumber, LUA_TNUMBER, LUA_TNIL, LUA_TINTEGER]

/-- C10, as stated, fails: from a string slot holding the three bytes `a`, NUL, `b`,
`readFromLuaStack<std::string>` returns the one byte `a`, not the content of the slot. -/
theorem readString_embedded_nul_counterexample :
    index2value (stateOf [.string "a\x00b"]) (-1) = some (.string "a\x00b") ∧
    (readFromLuaStack .string (stateOf [.string "a\x00b"]) "x" (-1)).1 = .ok "a" ∧
    (readFromLuaStack .string (stateOf [.string "a\x00b"]) "x" (-1)).1 ≠ .ok "a\x00b" := by
  refine ⟨by rfl, by rfl, ?_⟩
  intro h
  have h2 : (Except.ok "a" : Except String String) = .ok "a\x00b" := h
  simp at h2

/-- C10, amended. `readFromLuaStack<std::string>` returns a value exactly when the tag of the
slot is string; it then returns the bytes of the slot that precede its first NUL byte, which is the
whole content when the string holds no NUL byte.  On every other slot it fails with
`Unexpected non-string type <label>`. -/
theorem readString_policy (L : lua_State) (fn : String) (index : Int) :
    ((∃ v, (readFromLuaStack .string L fn index).1 = .ok v) ↔ lua_type L index = LUA_TSTRING) ∧
    (∀ s, index2value L index = some (.string s) →
      readFromLuaStack .string L fn index = (.ok (cstr s), L) ∧
      ((∀ c ∈ s.data, c ≠ Char.ofNat 0) →
        readFromLuaStack .string L fn index = (.ok s, L))) ∧
    ((∀ s, index2value L index ≠ some (.string s)) →
      readFromLuaStack .string L fn index
        = (.error ("Unexpected non-string type " ++ fn), L)) := by
  refine ⟨?_, ?_, ?_⟩
  · cases h : index2value L index with
    | none => simp [readFromLuaStack, readString, lua_type, h, LUA_TNONE, LUA_TSTRING]
    | some v => cases v <;> simp [readFromLuaStack, readString, lua_type, h, LuaValue.typeTag,
        LUA_TNUMBER, LUA_TNIL, LUA_TBOOLEAN, LUA_TLIGHTUSERDATA, LUA_TSTRING, LUA_TFUNCTION,
        LUA_TUSERDATA, LUA_TTHREAD, LUA_TTABLE]
  · intro s hs
    refine ⟨?_, fun hn => ?_⟩
    · simp [readFromLuaStack, readString, lua_type, hs, LuaValue.typeTag, lua_tostring,
        std_string]
    · simp [readFromLuaStack, readString, lua_type, hs, LuaValue.typeTag, lua_tostring,
        std_string, cstr_eq_self s hn]
  · intro hn
    cases h : index2value L index with
    | none => simp [readFromLuaStack, readString, lua_type, h, LUA_TNONE, LUA_TSTRING]
    | some v =>
      cases v <;> simp [readFromLuaStack, readString, lua_type, h, LuaValue.typeTag,
        LUA_TNUMBER, LUA_TNIL, LUA_TBOOLEAN, LUA_TLIGHTUSERDATA, LUA_TSTRING, LUA_TFUNCTION,
        LUA_TUSERDATA, LUA_TTHREAD, LUA_TTABLE]
      exact absurd h (hn _)

/-- C1. For every integral type `T` and every value `v` of `T`, `pushToLuaStack` pushes one
integer slot, and `readFromLuaStack<T>` on that slot returns `v` and leaves the stack as it is. -/
theorem integer_round_trip (T : IntegralType) (v : Int) (hv : T.InRange v) (L : lua_State)
    (fn : String) :
    (∃ i, (pushToLuaStack (.integral T) L v).stack = .integer i :: L.stack) ∧
    readFromLuaStack (.integral T) (pushToLuaStack (.integral T) L v) fn (-1)
      = (.ok v, pushToLuaStack (.integral T) L v) := by
  unfold IntegralType.InRange IntegralType.minValue IntegralType.maxValue at hv
  constructor
  · simp only [pushToLuaStack, pushIntegral, lua_pushinteger, pushValue]
    split <;> exact ⟨_, rfl⟩
  · cases T <;>
      simp [IntegralType.isSigned, IntegralType.bits] at hv <;>
      simp [readFromLuaStack, pushToLuaStack, pushIntegral, readIntegral, lua_get_type, lua_type,
        lua_pushinteger, lua_isinteger, lua_tointeger, LuaValue.typeTag, IntegralType.isSigned,
        IntegralType.cast, IntegralType.bits, LUA_TNUMBER, LUA_TNIL, LUA_TINTEGER, wrapSigned,
        wrapUnsigned] <;>
      omega

/-- C1, at the largest 64-bit unsigned value, which is above the signed 64-bit maximum. -/
theorem integer_round_trip_witness :
    IntegralType.uint64.InRange 18446744073709551615 ∧
    readFromLuaStack (.integral .uint64)
        (pushToLuaStack (.integral .uint64) (stateOf []) 18446744073709551615) "x" (-1)
      = (.ok 18446744073709551615,
          pushToLuaStack (.integral .uint64) (stateOf []) 18446744073709551615) :=
  ⟨by decide, (integer_round_trip .uint64 18446744073709551615 (by decide) (stateOf []) "x").2⟩

/-! ## Sequences -/

theorem pushIntegral_eq (T : IntegralType) (L : lua_State) (v : Int) :
    pushIntegral T L v = pushValue L (.integer (integralSlot T v)) := by
  unfold pushIntegral integralSlot lua_pushinteger
  split <;> rfl

theorem lua_rawseti_top (L : lua_State) (es : Entries) (len : Nat) (x : LuaValue) (n : Int) :
    lua_rawseti (pushValue (pushValue L (.table es len)) x) (-2) n
      = pushValue L (.table (tableSet es (.integer n) x)
          (L.getn (tableSet es (.integer n) x))) := by
  have h : (2 : Int) ≤ (L.stack.length : Int) + 1 + 1 := by omega
  simp [lua_rawseti, storeAndPop, stackPos, pushValue, lua_gettop, lua_pop, h]

theorem pushElements_eq {α : Type} (pushInner : lua_State → α → lua_State) (enc : α → LuaValue)
    (hpush : ∀ L v, pushInner L v = pushValue L (enc v)) (xs : List α) (i : Int)
    (L : lua_State) (es : Entries) :
    pushElements pushInner xs i (pushValue L (.table es (L.getn es)))
      = pushValue L (.table (storeAll es i (xs.map enc)) (L.getn (storeAll es i (xs.map enc)))) := by
  induction xs generalizing i es with
  | nil => rfl
  | cons x rest ih =>
    simp only [pushElements, hpush, lua_rawseti_top, List.map_cons, storeAll]
    exact ih _ _

theorem pushSequence_eq {α : Type} (pushInner : lua_State → α → lua_State) (enc : α → LuaValue)
    (hpush : ∀ L v, pushInner L v = pushValue L (enc v)) (xs : List α) (L : lua_State) :
    pushSequence pushInner L xs.length xs
      = pushValue L (.table (storeAll [] 0 (xs.map enc)) (L.getn (storeAll [] 0 (xs.map enc)))) := by
  simp only [pushSequence, lua_createtable, List.take_length]
  exact pushElements_eq pushInner enc hpush xs 0 L []


theorem tableSet_fresh (es : Entries) (k : Int) (v : LuaValue) (hv : v ≠ .nil)
    (hfresh : ∀ e ∈ es, rawKeyEq e.1 (.integer k) = false) :
    tableSet es (.integer k) v = es ++ [(.integer k, v)] := by
  have hany : (es.any fun e => rawKeyEq e.1 (.integer k)) = false := by
    rw [List.any_eq_false]
    intro e he
    simp [hfresh e he]
  cases v <;> simp [tableSet, normKey, hany] at hv ⊢

theorem storeAll_eq_append (vals : List LuaValue) (i : Int) (es : Entries)
    (hes : ∀ e ∈ es, ∃ k : Int, e.1 = .integer k ∧ k ≤ i) (hvals : ∀ v ∈ vals, v ≠ .nil) :
    storeAll es i vals = es ++ sequenceEntries i vals := by
  induction vals generalizing i es with
  | nil => simp [storeAll, sequenceEntries]
  | cons v rest ih =>
    have hfresh : ∀ e ∈ es, rawKeyEq e.1 (.integer (i + 1)) = false := by
      intro e he
      obtain ⟨k, hk, hle⟩ := hes e he
      rw [hk]
      simp only [rawKeyEq, beq_eq_false_iff_ne, ne_eq]
      omega
    rw [storeAll, tableSet_fresh es (i + 1) v (hvals v (List.mem_cons_self _ _)) hfresh,
      ih (i + 1) _ ?_ (fun w hw => hvals w (List.mem_cons_of_mem _ hw))]
    · simp [sequenceEntries]
    · intro e he
      rcases List.mem_append.1 he with h | h
      · obtain ⟨k, hk, hle⟩ := hes e h
        exact ⟨k, hk, by omega⟩
      · rw [List.mem_singleton.1 h]
        exact ⟨i + 1, rfl, le_refl _⟩

theorem tableGet_cons (e : LuaValue × LuaValue) (es : Entries) (k : LuaValue) :
    tableGet (e :: es) k = if rawKeyEq e.1 k then e.2 else tableGet es k := by
  unfold tableGet
  simp only [List.find?]
  cases rawKeyEq e.1 k <;> simp

theorem tableGet_sequenceEntries (vals : List LuaValue) (i : Int) (j : Nat)
    (hj : j < vals.length) :
    tableGet (sequenceEntries i vals) (.integer (i + 1 + j)) = vals[j] := by
  induction vals generalizing i j with
  | nil => simp at hj
  | cons v rest ih =>
    cases j with
    | zero => simp [sequenceEntries, tableGet, rawKeyEq]
    | succ j =>
      have hne : ¬ (i + 1 = i + 1 + ((j + 1 : Nat) : Int)) := by omega
      have hj2 : j < rest.length := by simpa using hj
      have := ih (i + 1) j hj2
      have he : i + 1 + ((j + 1 : Nat) : Int) = i + 1 + 1 + (j : Int) := by push_cast; ring
      simp only [sequenceEntries, tableGet_cons, rawKeyEq, beq_iff_eq, hne, if_false,
        List.getElem_cons_succ]
      rw [he]
      exact this

theorem tableGet_sequenceEntries_outside (vals : List LuaValue) (i k : Int)
    (hk : k ≤ i ∨ i + vals.length < k) :
    tableGet (sequenceEntries i vals) (.integer k) = .nil := by
  induction vals generalizing i with
  | nil => simp [sequenceEntries, tableGet]
  | cons v rest ih =>
    have hne : ¬ (i + 1 = k) := by
      simp only [List.length_cons] at hk; push_cast at hk; omega
    have := ih (i + 1) (by simp only [List.length_cons] at hk; push_cast at hk; omega)
    simp only [sequenceEntries, tableGet_cons, rawKeyEq, beq_iff_eq, hne, if_false]
    exact this

theorem border_sequenceEntries (vals : List LuaValue) (hvals : ∀ v ∈ vals, v ≠ .nil) (b : Nat)
    (hb : IsBorder (sequenceEntries 0 vals) b) : b = vals.length := by
  obtain ⟨h1, h2⟩ := hb
  have hge : vals.length ≤ b := by
    by_contra hlt
    have hlt : b < vals.length := by omega
    have := tableGet_sequenceEntries vals 0 b hlt
    have he : (0 : Int) + 1 + (b : Int) = (b : Int) + 1 := by ring
    rw [he, h2] at this
    exact hvals _ (List.getElem_mem hlt) this.symm
  by_contra hne
  have hgt : vals.length < b := by omega
  rcases h1 with h0 | hget
  · omega
  · exact hget (tableGet_sequenceEntries_outside vals 0 b (Or.inr (by omega)))

theorem sequenceEntries_keys (vals : List LuaValue) (i : Int) (hi : 0 ≤ i) :
    ∀ e ∈ sequenceEntries i vals, PositiveIntegerKey e.1 := by
  induction vals generalizing i with
  | nil => simp [sequenceEntries]
  | cons v rest ih =>
    intro e he
    simp only [sequenceEntries, List.mem_cons] at he
    rcases he with rfl | he
    · exact ⟨i + 1, rfl, by omega⟩
    · exact ih (i + 1) (by omega) e he

theorem largestKey_sequenceEntries (vals : List LuaValue) (i : Int) (hi : 0 ≤ i)
    (hne : vals ≠ []) : largestKey (sequenceEntries i vals) = i + vals.length := by
  induction vals generalizing i with
  | nil => exact absurd rfl hne
  | cons v rest ih =>
    simp only [sequenceEntries, largestKey, List.length_cons]
    by_cases hr : rest = []
    · subst hr
      simp [sequenceEntries, largestKey]; omega
    · rw [ih (i + 1) (by omega) hr]
      push_cast
      omega

theorem isListSpec_sequence (vals : List LuaValue) :
    isListSpec (some (.table (sequenceEntries 0 vals) vals.length)) = true := by
  rw [isListSpec_table]
  by_cases hne : vals = []
  · left; simp [hne]
  · right
    exact ⟨sequenceEntries_keys vals 0 (le_refl 0),
      by rw [largestKey_sequenceEntries vals 0 (le_refl 0) hne]; simp⟩

theorem lua_rawgeti_top (L : lua_State) (es : Entries) (len : Nat) (n : Int) :
    lua_rawgeti (pushValue L (.table es len)) (-1) n
      = pushValue (pushValue L (.table es len)) (tableGet es (.integer n)) := by
  simp [lua_rawgeti, tableEntries]

theorem readVector_loop_eq {α : Type} (readValue : lua_State → String → Int → Result α)
    (enc : α → LuaValue) (fn : String) (L : lua_State) (es : Entries) (len : Nat)
    (pre post : List α) (acc : List α)
    (hget : ∀ (j : Nat) (hj : j < (pre ++ post).length),
      tableGet es (.integer ((j : Int) + 1)) = enc ((pre ++ post)[j]))
    (hread : ∀ L, ∀ x ∈ pre ++ post,
      readValue (pushValue L (enc x)) fn (-1) = (.ok x, pushValue L (enc x))) :
    readVector_loop readValue fn (-1) post.length ((pre.length : Int) + 1) acc
        (pushValue L (.table es len))
      = (.ok (acc ++ post), pushValue L (.table es len)) := by
  induction post generalizing pre acc with
  | nil => simp [readVector_loop]
  | cons x rest ih =>
    have hj : pre.length < (pre ++ x :: rest).length := by simp
    have hg := hget pre.length hj
    have hx : (pre ++ x :: rest)[pre.length] = x := by
      rw [List.getElem_append_right (le_refl _)]
      simp
    rw [hx] at hg
    simp only [List.length_cons, readVector_loop, lua_rawgeti_top, hg,
      hread _ x (by simp), lua_pop_pushValue]
    have := ih (pre ++ [x]) (acc ++ [x]) (by simpa using hget) (by simpa using hread)
    simp only [List.length_append, List.length_singleton, List.append_assoc,
      List.singleton_append] at this
    push_cast at this
    exact this


theorem acceptable_top (L : lua_State) (v : LuaValue) : AcceptableIndex (pushValue L v) (-1) := by
  unfold AcceptableIndex lua_gettop pushValue
  right
  refine ⟨by decide, ?_⟩
  simp only [List.length_cons]
  push_cast
  omega

theorem readIntegral_integralSlot (T : IntegralType) (v : Int) (hv : T.InRange v)
    (L : lua_State) (fn : String) :
    readIntegral T (pushValue L (.integer (integralSlot T v))) fn (-1)
      = (.ok v, pushValue L (.integer (integralSlot T v))) := by
  unfold IntegralType.InRange IntegralType.minValue IntegralType.maxValue at hv
  cases T <;>
    simp [IntegralType.isSigned, IntegralType.bits] at hv <;>
    simp [readIntegral, integralSlot, lua_get_type, lua_type,
      lua_isinteger, lua_tointeger, LuaValue.typeTag, IntegralType.isSigned,
      IntegralType.cast, IntegralType.bits, LUA_TNUMBER, LUA_TNIL, LUA_TINTEGER, wrapSigned,
      wrapUnsigned] <;>
    omega

theorem pushVector_integral_eq (T : IntegralType) (v : List Int) (L : lua_State)
    (hgetn : ∀ es, IsBorder es (L.getn es)) :
    pushToLuaStack (.vector (.integral T)) L v
      = pushValue L (.table (sequenceEntries 0 (v.map fun x => .integer (integralSlot T x)))
          v.length) := by
  have hvals : ∀ w ∈ v.map (fun x => LuaValue.integer (integralSlot T x)), w ≠ .nil := by
    intro w hw
    obtain ⟨x, _, rfl⟩ := List.mem_map.1 hw
    simp
  have hpush : pushToLuaStack (.vector (.integral T)) L v
      = pushSequence (pushIntegral T) L v.length v := rfl
  rw [hpush, pushSequence_eq (pushIntegral T) (fun x => .integer (integralSlot T x))
    (pushIntegral_eq T) v L, storeAll_eq_append _ 0 [] (by simp) hvals, List.nil_append]
  have hb := border_sequenceEntries _ hvals _ (hgetn (sequenceEntries 0
    (v.map fun x => LuaValue.integer (integralSlot T x))))
  rw [hb, List.length_map]

/-- C2. For every list `v` of values of an integral type, the empty list included, and a runtime
whose length primitive returns a border, `pushToLuaStack` pushes one table that `isList` accepts,
and `readFromLuaStack` at the same vector type on that table returns `v`, in the same order, and
leaves the stack as it is. -/
theorem sequence_round_trip (T : IntegralType) (v : List Int) (hv : ∀ x ∈ v, T.InRange x)
    (L : lua_State) (hgetn : ∀ es, IsBorder es (L.getn es)) (fn : String) :
    (∃ es len, (pushToLuaStack (.vector (.integral T)) L v).stack = .table es len :: L.stack) ∧
    (isList (pushToLuaStack (.vector (.integral T)) L v) (-1)).1 = true ∧
    readFromLuaStack (.vector (.integral T)) (pushToLuaStack (.vector (.integral T)) L v) fn (-1)
      = (.ok v, pushToLuaStack (.vector (.integral T)) L v) := by
  rw [pushVector_integral_eq T v L hgetn]
  set vals := v.map fun x => LuaValue.integer (integralSlot T x) with hvals
  have hlen : vals.length = v.length := by simp [hvals]
  have hshape : isListSpec (some (.table (sequenceEntries 0 vals) v.length)) = true := by
    rw [← hlen]; exact isListSpec_sequence vals
  have hlist : isList (pushValue L (.table (sequenceEntries 0 vals) v.length)) (-1)
      = (true, pushValue L (.table (sequenceEntries 0 vals) v.length)) := by
    rw [isList_eq _ _ (acceptable_top _ _), index2value_top, hshape]
  refine ⟨⟨_, _, rfl⟩, by rw [hlist], ?_⟩
  have hloop := readVector_loop_eq (readIntegral T) (fun x => .integer (integralSlot T x)) fn L
    (sequenceEntries 0 vals) v.length [] v [] ?_ ?_
  · have hread : readFromLuaStack (.vector (.integral T))
        (pushValue L (.table (sequenceEntries 0 vals) v.length)) fn (-1)
        = readVector (readIntegral T)
            (pushValue L (.table (sequenceEntries 0 vals) v.length)) fn (-1) := rfl
    rw [hread]
    unfold readVector
    rw [hlist]
    simp only [luaL_checktype_table, lua_type, index2value_top, LuaValue.typeTag, lua_rawlen,
      objLength]
    simpa using hloop
  · intro j hj
    simp only [List.nil_append] at hj ⊢
    have hj2 : j < vals.length := by omega
    have := tableGet_sequenceEntries vals 0 j hj2
    have he : (0 : Int) + 1 + (j : Int) = (j : Int) + 1 := by ring
    rw [he] at this
    rw [this]
    simp [hvals]
  · intro L x hx
    exact readIntegral_integralSlot T x (hv x (by simpa using hx)) L fn


/-! ## The smallest border is a border -/

theorem isNil_iff (v : LuaValue) : v.isNil = true ↔ v = .nil := by
  cases v <;> simp [LuaValue.isNil]

theorem tableGet_ne_nil_mem (es : Entries) (k : Int)
    (h : tableGet es (.integer k) ≠ .nil) : ∃ e ∈ es, e.1 = LuaValue.integer k := by
  induction es with
  | nil => simp [tableGet] at h
  | cons e rest ih =>
    rw [tableGet_cons] at h
    by_cases hk : rawKeyEq e.1 (.integer k) = true
    · refine ⟨e, List.mem_cons_self _ _, ?_⟩
      obtain ⟨a, b⟩ := e
      cases a <;> simp [rawKeyEq] at hk ⊢
      exact hk
    · simp only [hk, if_false] at h
      obtain ⟨e', he', hk'⟩ := ih h
      exact ⟨e', List.mem_cons_of_mem _ he', hk'⟩

theorem present_keys_le_length (es : Entries) (n : Nat)
    (h : ∀ k : Nat, 1 ≤ k → k ≤ n → tableGet es (.integer (k : Int)) ≠ .nil) :
    n ≤ es.length := by
  classical
  have hsub : (Finset.Icc 1 n).image (fun k : Nat => LuaValue.integer (k : Int))
      ⊆ (es.map Prod.fst).toFinset := by
    intro x hx
    obtain ⟨k, hk, rfl⟩ := Finset.mem_image.1 hx
    obtain ⟨h1, h2⟩ := Finset.mem_Icc.1 hk
    obtain ⟨e, he, hek⟩ := tableGet_ne_nil_mem es k (h k h1 h2)
    rw [List.mem_toFinset, List.mem_map]
    exact ⟨e, he, hek⟩
  have hcard := Finset.card_le_card hsub
  rw [Finset.card_image_of_injective _ (by intro a b hab; simpa using hab)] at hcard
  have h2 := List.toFinset_card_le (es.map Prod.fst)
  simp only [Nat.card_Icc, List.length_map] at hcard h2
  omega

theorem leastBorderFrom_spec (es : Entries) (fuel n : Nat)
    (hpre : ∀ k : Nat, 1 ≤ k → k ≤ n → tableGet es (.integer (k : Int)) ≠ .nil) :
    (∀ k : Nat, 1 ≤ k → k ≤ leastBorderFrom es fuel n →
        tableGet es (.integer (k : Int)) ≠ .nil) ∧
    (tableGet es (.integer ((leastBorderFrom es fuel n : Nat) + 1)) = .nil ∨
      leastBorderFrom es fuel n = n + fuel) := by
  induction fuel generalizing n with
  | zero => exact ⟨hpre, Or.inr rfl⟩
  | succ fuel ih =>
    by_cases hnil : (tableGet es (.integer ((n : Int) + 1))).isNil = true
    · have hstep : leastBorderFrom es (fuel + 1) n = n := by
        rw [leastBorderFrom, if_pos hnil]
      rw [hstep]
      exact ⟨hpre, Or.inl ((isNil_iff _).1 hnil)⟩
    · have hstep : leastBorderFrom es (fuel + 1) n = leastBorderFrom es fuel (n + 1) := by
        rw [leastBorderFrom, if_neg hnil]
      rw [hstep]
      have hpre2 : ∀ k : Nat, 1 ≤ k → k ≤ n + 1 → tableGet es (.integer (k : Int)) ≠ .nil := by
        intro k h1 h2
        by_cases hk : k = n + 1
        · subst hk
          intro hc
          apply hnil
          rw [isNil_iff]
          push_cast at hc
          exact hc
        · exact hpre k h1 (by omega)
      obtain ⟨h1, h2⟩ := ih (n + 1) hpre2
      refine ⟨h1, ?_⟩
      rcases h2 with h2 | h2
      · exact Or.inl h2
      · exact Or.inr (by omega)

theorem leastBorder_isBorder (es : Entries) : IsBorder es (leastBorder es) := by
  obtain ⟨h1, h2⟩ := leastBorderFrom_spec es es.length 0 (by intro k h1 h2; omega)
  unfold leastBorder
  refine ⟨?_, ?_⟩
  · by_cases h0 : leastBorderFrom es es.length 0 = 0
    · exact Or.inl h0
    · exact Or.inr (h1 _ (by omega) (le_refl _))
  · rcases h2 with h2 | h2
    · exact h2
    · by_contra hne
      have hall : ∀ k : Nat, 1 ≤ k → k ≤ es.length + 1 →
          tableGet es (.integer (k : Int)) ≠ .nil := by
        intro k hk1 hk2
        by_cases hk : k = es.length + 1
        · subst hk
          rw [h2] at hne
          push_cast at hne ⊢
          simpa using hne
        · exact h1 k hk1 (by omega)
      have := present_keys_le_length es (es.length + 1) hall
      omega

/-- C2, on the list 5, -7, 9 of 32-bit integers, with the smallest border as length
primitive. -/
theorem sequence_round_trip_witness :
    (∀ x ∈ [5, -7, 9], IntegralType.int32.InRange x) ∧
    (∀ es, IsBorder es ((stateOf []).getn es)) ∧
    readFromLuaStack (.vector (.integral .int32))
        (pushToLuaStack (.vector (.integral .int32)) (stateOf []) [5, -7, 9]) "x" (-1)
      = (.ok [5, -7, 9], pushToLuaStack (.vector (.integral .int32)) (stateOf []) [5, -7, 9]) :=
  ⟨by decide, leastBorder_isBorder,
    (sequence_round_trip .int32 [5, -7, 9] (by decide) (stateOf []) leastBorder_isBorder "x").2.2⟩

/-! ## The tagged union -/

/-- C4, as stated, fails on two variants: a bool variant is pushed as an integer and read back
as the integer variant, and a string variant with an embedded NUL byte is read back cut at that
byte. -/
theorem basic_round_trip_counterexample :
    (readFromLuaStack .basic (pushToLuaStack .basic (stateOf []) (.boolean true)) "x" (-1)).1
      = .ok (.integer 1) ∧
    (readFromLuaStack .basic (pushToLuaStack .basic (stateOf []) (.boolean true)) "x" (-1)).1
      ≠ .ok (.boolean true) ∧
    (readFromLuaStack .basic (pushToLuaStack .basic (stateOf []) (.string "a\x00b")) "x" (-1)).1
      = .ok (.string "a") ∧
    (readFromLuaStack .basic (pushToLuaStack .basic (stateOf []) (.string "a\x00b")) "x" (-1)).1
      ≠ .ok (.string "a\x00b") := by
  have h1 : (readFromLuaStack .basic (pushToLuaStack .basic (stateOf []) (.boolean true)) "x"
      (-1)).1 = .ok (.integer 1) := by rfl
  have h2 : (readFromLuaStack .basic (pushToLuaStack .basic (stateOf []) (.string "a\x00b")) "x"
      (-1)).1 = .ok (.string "a") := by rfl
  refine ⟨h1, ?_, h2, ?_⟩
  · rw [h1]; simp
  · rw [h2]; simp

/-- C4, amended. For every `BasicLuaType` value holding an integer, a float, a string without
NUL byte or nil, `pushToLuaStack` is the scalar write of the alternative held, and
`readFromLuaStack<BasicLuaType>` on the pushed slot returns the value, with the same alternative
held, and leaves the stack as it is. -/
theorem basic_round_trip (v : BasicLuaType) (hv : v.Plain) (L : lua_State) (fn : String) :
    (pushToLuaStack .basic L v =
      match v with
      | .integer i => pushToLuaStack (.integral .int64) L i
      | .number x => pushToLuaStack .floating L x
      | .boolean b => pushToLuaStack (.integral .bool) L (if b then 1 else 0)
      | .string s => pushToLuaStack .string L s
      | .nullopt => lua_pushnil L) ∧
    readFromLuaStack .basic (pushToLuaStack .basic L v) fn (-1)
      = (.ok v, pushToLuaStack .basic L v) := by
  refine ⟨by cases v <;> rfl, ?_⟩
  cases v with
  | integer i =>
    obtain ⟨h1, h2⟩ := hv
    simp [readFromLuaStack, pushToLuaStack, pushBasic, pushIntegral, readBasic, lua_get_type,
      lua_type, lua_pushinteger, lua_isinteger, lua_tointeger, LuaValue.typeTag,
      IntegralType.isSigned, IntegralType.cast, IntegralType.bits, LUA_TNUMBER, LUA_TNIL,
      LUA_TINTEGER, wrapSigned]
    omega
  | number x =>
    simp [readFromLuaStack, pushToLuaStack, pushBasic, readBasic, lua_get_type, lua_type,
      lua_pushnumber, lua_isinteger, lua_tonumber, LuaValue.typeTag, LUA_TNUMBER, LUA_TNIL,
      LUA_TINTEGER]
  | boolean b => exact absurd hv (by simp [BasicLuaType.Plain])
  | string s =>
    have hs : cstr s = s := cstr_eq_self s hv
    simp [readFromLuaStack, pushToLuaStack, pushBasic, readBasic, lua_get_type, lua_type,
      lua_pushstring, lua_isinteger, lua_tostring, std_string, LuaValue.typeTag, LUA_TNUMBER,
      LUA_TNIL, LUA_TINTEGER, LUA_TSTRING, LUA_TBOOLEAN, hs]
  | nullopt =>
    simp [readFromLuaStack, pushToLuaStack, pushBasic, readBasic, lua_get_type, lua_type,
      lua_pushnil, LuaValue.typeTag, LUA_TNUMBER, LUA_TNIL]

/-- C4, amended, on the string `ok`. -/
theorem basic_round_trip_witness :
    (BasicLuaType.string "ok").Plain ∧
    readFromLuaStack .basic (pushToLuaStack .basic (stateOf []) (.string "ok")) "x" (-1)
      = (.ok (.string "ok"), pushToLuaStack .basic (stateOf []) (.string "ok")) :=
  ⟨by simp [BasicLuaType.Plain], (basic_round_trip (.string "ok")
    (by simp [BasicLuaType.Plain]) (stateOf []) "x").2⟩

/-! ## Maps -/

theorem lua_settable_top (L : lua_State) (es : Entries) (len : Nat) (k v : LuaValue) :
    lua_settable (pushValue (pushValue (pushValue L (.table es len)) k) v) (-3)
      = pushValue L (.table (tableSet es k v) (L.getn (tableSet es k v))) := by
  have h : (3 : Int) ≤ (L.stack.length : Int) + 1 + 1 + 1 := by omega
  simp [lua_settable, storeAndPop, stackPos, pushValue, lua_gettop, lua_pop, h]

theorem pushEntries_eq {κ α : Type} (pushK : lua_State → κ → lua_State)
    (pushV : lua_State → α → lua_State) (encK : κ → LuaValue) (encV : α → LuaValue)
    (m : List (κ × α)) (hK : ∀ L, ∀ e ∈ m, pushK L e.1 = pushValue L (encK e.1))
    (hV : ∀ L, ∀ e ∈ m, pushV L e.2 = pushValue L (encV e.2))
    (L : lua_State) (es : Entries) :
    pushEntries pushK pushV m (pushValue L (.table es (L.getn es)))
      = pushValue L (.table (storePairs es (m.map fun e => (encK e.1, encV e.2)))
          (L.getn (storePairs es (m.map fun e => (encK e.1, encV e.2))))) := by
  induction m generalizing es with
  | nil => rfl
  | cons e rest ih =>
    obtain ⟨k, v⟩ := e
    have h1 := hK (pushValue L (.table es (L.getn es))) (k, v) (List.mem_cons_self _ _)
    have h2 := hV (pushValue (pushValue L (.table es (L.getn es))) (encK k)) (k, v)
      (List.mem_cons_self _ _)
    simp only at h1 h2
    simp only [pushEntries, h1, h2, lua_settable_top, List.map_cons, storePairs]
    exact ih (fun L e he => hK L e (List.mem_cons_of_mem _ he))
      (fun L e he => hV L e (List.mem_cons_of_mem _ he)) _

theorem tableSet_string_fresh (es : Entries) (k : String) (v : LuaValue)
    (hfresh : ∀ e ∈ es, rawKeyEq e.1 (.string k) = false) :
    tableSet es (.string k) v = if v.isNil then es else es ++ [(.string k, v)] := by
  have hany : (es.any fun e => rawKeyEq e.1 (.string k)) = false := by
    rw [List.any_eq_false]
    intro e he
    simp [hfresh e he]
  have hfilter : es.filter (fun e => !rawKeyEq e.1 (.string k)) = es := by
    rw [List.filter_eq_self]
    intro e he
    simp [hfresh e he]
  cases v <;> simp [tableSet, normKey, hany, hfilter, LuaValue.isNil]

theorem storePairs_strings (T : IntegralType) (m : List (String × Option Int)) (es : Entries)
    (hnodup : (m.map Prod.fst).Nodup)
    (hes : ∀ e ∈ es, ∀ k ∈ m.map Prod.fst, rawKeyEq e.1 (.string k) = false) :
    storePairs es (m.map fun e => (LuaValue.string e.1, optionalSlot T e.2))
      = es ++ (m.filter fun e => e.2.isSome).map
          fun e => (LuaValue.string e.1, optionalSlot T e.2) := by
  induction m generalizing es with
  | nil => simp [storePairs]
  | cons e rest ih =>
    obtain ⟨k, v⟩ := e
    simp only [List.map_cons, List.nodup_cons] at hnodup
    have hfresh : ∀ e ∈ es, rawKeyEq e.1 (.string k) = false :=
      fun e he => hes e he k (by simp)
    simp only [List.map_cons, storePairs, tableSet_string_fresh es k _ hfresh]
    cases v with
    | none =>
      have h0 : optionalSlot T none = .nil := rfl
      simp only [h0, LuaValue.isNil, if_true]
      rw [ih es hnodup.2 (fun e he k' hk' => hes e he k' (by simp [hk'] ))]
      simp [List.filter]
    | some x =>
      have h0 : optionalSlot T (some x) = .integer (integralSlot T x) := rfl
      simp only [h0, LuaValue.isNil, Bool.false_eq_true, if_false]
      rw [ih _ hnodup.2 ?_]
      · simp [List.filter, h0]
      · intro e he k' hk'
        rcases List.mem_append.1 he with h | h
        · exact hes e h k' (by simp [hk'])
        · rw [List.mem_singleton.1 h]
          simp only [rawKeyEq, beq_eq_false_iff_ne, ne_eq]
          rintro rfl
          exact hnodup.1 hk'


theorem readMap_count_state (es : Entries) (count : Nat) (L : lua_State) (x : LuaValue) :
    (readMap_count es count (pushValue L x)).2 = L := by
  induction es generalizing count x with
  | nil => rfl
  | cons e rest ih =>
    obtain ⟨k, v⟩ := e
    simp only [readMap_count, lua_next, lua_pop_pushValue]
    exact ih _ _

theorem lua_type_top_ne_nil (L : lua_State) (v : LuaValue) (hv : v ≠ .nil) :
    (lua_type (pushValue L v) (-1) != LUA_TNIL) = true := by
  cases v <;> simp [lua_type, LuaValue.typeTag, LUA_TNIL, LUA_TBOOLEAN, LUA_TLIGHTUSERDATA,
    LUA_TNUMBER, LUA_TSTRING, LUA_TTABLE, LUA_TFUNCTION, LUA_TUSERDATA, LUA_TTHREAD] at hv ⊢

theorem mapAssign_fresh {κ α : Type} [DecidableEq κ] (acc : List (κ × α)) (k : κ) (v : α)
    (hk : ∀ e ∈ acc, e.1 ≠ k) : mapAssign acc k v = acc ++ [(k, v)] := by
  have hany : (acc.any fun e => decide (e.1 = k)) = false := by
    rw [List.any_eq_false]
    intro e he
    simp [hk e he]
  simp [mapAssign, hany]

theorem readMap_loop_eq {κ α : Type} [DecidableEq κ]
    (readK : lua_State → String → Int → Result κ) (readV : lua_State → String → Int → Result α)
    (encK : κ → LuaValue) (encV : α → LuaValue) (fn : String) (L : lua_State)
    (ps acc : List (κ × α)) (x : LuaValue)
    (hnil : ∀ e ∈ ps, encV e.2 ≠ .nil)
    (hK : ∀ L, ∀ e ∈ ps, readK (pushValue (pushValue L (encK e.1)) (encV e.2)) fn (-2)
      = (.ok e.1, pushValue (pushValue L (encK e.1)) (encV e.2)))
    (hV : ∀ L, ∀ e ∈ ps, readV (pushValue (pushValue L (encK e.1)) (encV e.2)) fn (-1)
      = (.ok e.2, pushValue (pushValue L (encK e.1)) (encV e.2)))
    (hnodup : (ps.map Prod.fst).Nodup) (hacc : ∀ e ∈ acc, e.1 ∉ ps.map Prod.fst) :
    readMap_loop readK readV fn (ps.map fun e => (encK e.1, encV e.2)) acc (pushValue L x)
      = (.ok (acc ++ ps), L) := by
  induction ps generalizing acc x with
  | nil => simp [readMap_loop, lua_next]
  | cons e rest ih =>
    obtain ⟨k, v⟩ := e
    simp only [List.map_cons, List.nodup_cons] at hnodup
    have hn := lua_type_top_ne_nil (pushValue L (encK k)) (encV v)
      (hnil (k, v) (List.mem_cons_self _ _))
    have h1 := hK L (k, v) (List.mem_cons_self _ _)
    have h2 := hV L (k, v) (List.mem_cons_self _ _)
    simp only at h1 h2
    have hfresh : ∀ e ∈ acc, e.1 ≠ k := by
      intro e he hek
      exact hacc e he (by simp [hek])
    simp only [List.map_cons, readMap_loop, lua_next, lua_pop_pushValue, hn, if_true, h1, h2,
      mapAssign_fresh acc k v hfresh]
    rw [ih (acc ++ [(k, v)]) (encK k) (fun e he => hnil e (List.mem_cons_of_mem _ he))
      (fun L e he => hK L e (List.mem_cons_of_mem _ he))
      (fun L e he => hV L e (List.mem_cons_of_mem _ he)) hnodup.2 ?_]
    · simp
    · intro e he
      rcases List.mem_append.1 he with h | h
      · intro hmem
        exact hacc e h (by simp [hmem])
      · rw [List.mem_singleton.1 h]
        exact hnodup.1

theorem dictKeysSpec_strings (ps : List (String × LuaValue)) :
    dictKeysSpec (ps.map fun e => (LuaValue.string e.1, e.2)) = true := by
  induction ps with
  | nil => rfl
  | cons e rest ih => simpa [dictKeysSpec] using ih

theorem readMap_eq {κ α : Type} [DecidableEq κ]
    (readK : lua_State → String → Int → Result κ) (readV : lua_State → String → Int → Result α)
    (encK : κ → LuaValue) (encV : α → LuaValue) (fn : String) (L : lua_State)
    (ps : List (κ × α)) (len : Nat)
    (hdict : dictKeysSpec (ps.map fun e => (encK e.1, encV e.2)) = true)
    (hnil : ∀ e ∈ ps, encV e.2 ≠ .nil)
    (hK : ∀ L, ∀ e ∈ ps, readK (pushValue (pushValue L (encK e.1)) (encV e.2)) fn (-2)
      = (.ok e.1, pushValue (pushValue L (encK e.1)) (encV e.2)))
    (hV : ∀ L, ∀ e ∈ ps, readV (pushValue (pushValue L (encK e.1)) (encV e.2)) fn (-1)
      = (.ok e.2, pushValue (pushValue L (encK e.1)) (encV e.2)))
    (hnodup : (ps.map Prod.fst).Nodup) :
    readMap readK readV (pushValue L (.table (ps.map fun e => (encK e.1, encV e.2)) len)) fn (-1)
      = (.ok ps, pushValue L (.table (ps.map fun e => (encK e.1, encV e.2)) len)) := by
  set es := ps.map fun e => (encK e.1, encV e.2) with hes
  set L1 := pushValue L (.table es len) with hL1
  have hacc := acceptable_top L (.table es len)
  have hpos := absindex_pos L1 (-1) hacc
  have hslot : index2value L1 (lua_absindex L1 (-1)) = some (.table es len) := by
    rw [index2value_absindex L1 (-1) hacc]; exact index2value_top _ _
  have hle := index_le_top L1 _ _ hpos hslot
  have hent : ∀ x, tableEntries (pushValue L1 x) (lua_absindex L1 (-1)) = es := by
    intro x
    rw [tableEntries_push_abs L1 x _ ⟨hpos, hle⟩]
    simp [tableEntries, hslot]
  unfold readMap
  rw [isDict_eq L1 (-1) hacc]
  have hd : isDictSpec (index2value L1 (-1)) = true := by
    rw [hL1, index2value_top]; exact hdict
  simp only [hd, lua_pushnil, hent, readMap_count_state]
  have := readMap_loop_eq readK readV encK encV fn L1 ps [] .nil hnil hK hV hnodup (by simp)
  simpa using this


theorem readOptional_integralSlot (T : IntegralType) (x : Int) (hx : T.InRange x)
    (L : lua_State) (fn : String) :
    readOptional (readIntegral T) (pushValue L (optionalSlot T (some x))) fn (-1)
      = (.ok (some x), pushValue L (optionalSlot T (some x))) := by
  have h := readIntegral_integralSlot T x hx L fn
  have hn : lua_isnil (pushValue L (LuaValue.integer (integralSlot T x))) (-1) = false := by
    simp [lua_isnil, lua_type, LuaValue.typeTag, LUA_TNUMBER, LUA_TNIL]
  simp only [readOptional, optionalSlot, hn, h]
  simp

theorem pushOptional_eq (T : IntegralType) (L : lua_State) (v : Option Int) :
    pushOptional (pushIntegral T) L v = pushValue L (optionalSlot T v) := by
  cases v with
  | none => rfl
  | some x => exact pushIntegral_eq T L x

/-- C3, as stated, fails: a map with the single key made of the bytes `a`, NUL, `b` is read
back with the key `a`. -/
theorem map_round_trip_counterexample :
    (readFromLuaStack (.map .string (.optional (.integral .int32)))
        (pushToLuaStack (.map .string (.optional (.integral .int32))) (stateOf [])
          [("a\x00b", some 1)]) "x" (-1)).1
      = .ok [("a", some 1)] ∧
    (readFromLuaStack (.map .string (.optional (.integral .int32)))
        (pushToLuaStack (.map .string (.optional (.integral .int32))) (stateOf [])
          [("a\x00b", some 1)]) "x" (-1)).1
      ≠ .ok ([("a\x00b", some 1)].filter fun e => e.2.isSome) := by
  have h : (readFromLuaStack (.map .string (.optional (.integral .int32)))
        (pushToLuaStack (.map .string (.optional (.integral .int32))) (stateOf [])
          [("a\x00b", some 1)]) "x" (-1)).1
      = .ok [("a", some 1)] := by rfl
  refine ⟨h, ?_⟩
  rw [h]
  simp
  decide

/-- C3, amended. For every map `m` from strings without NUL byte to optional integers,
`pushToLuaStack` followed by `readFromLuaStack` at the same map type returns exactly the entries
of `m` whose value is present, and leaves the stack as it is; an entry whose value is absent is
not in the result, and a map with every value present is read back equal to `m`. -/
theorem map_round_trip (T : IntegralType) (m : List (String × Option Int))
    (hkeys : (m.map Prod.fst).Nodup)
    (hnul : ∀ e ∈ m, ∀ c ∈ e.1.data, c ≠ Char.ofNat 0)
    (hv : ∀ e ∈ m, ∀ x, e.2 = some x → T.InRange x) (L : lua_State) (fn : String) :
    readFromLuaStack (.map .string (.optional (.integral T)))
        (pushToLuaStack (.map .string (.optional (.integral T))) L m) fn (-1)
      = (.ok (m.filter fun e => e.2.isSome),
          pushToLuaStack (.map .string (.optional (.integral T))) L m) ∧
    ((∀ e ∈ m, e.2.isSome = true) →
      readFromLuaStack (.map .string (.optional (.integral T)))
          (pushToLuaStack (.map .string (.optional (.integral T))) L m) fn (-1)
        = (.ok m, pushToLuaStack (.map .string (.optional (.integral T))) L m)) := by
  have hpush : pushToLuaStack (.map .string (.optional (.integral T))) L m
      = pushValue L (.table ((m.filter fun e => e.2.isSome).map
          fun e => (LuaValue.string e.1, optionalSlot T e.2))
          (L.getn ((m.filter fun e => e.2.isSome).map
            fun e => (LuaValue.string e.1, optionalSlot T e.2)))) := by
    have h0 : pushToLuaStack (.map .string (.optional (.integral T))) L m
        = pushMap lua_pushstring (pushOptional (pushIntegral T)) L m := rfl
    rw [h0]
    unfold pushMap lua_createtable
    rw [pushEntries_eq lua_pushstring (pushOptional (pushIntegral T)) LuaValue.string
      (optionalSlot T) m ?_ (fun L e _ => pushOptional_eq T L e.2),
      storePairs_strings T m [] hkeys (by simp), List.nil_append]
    intro L e he
    simp only [lua_pushstring, cstr_eq_self e.1 (hnul e he)]
  have hread : readFromLuaStack (.map .string (.optional (.integral T)))
        (pushToLuaStack (.map .string (.optional (.integral T))) L m) fn (-1)
      = (.ok (m.filter fun e => e.2.isSome),
          pushToLuaStack (.map .string (.optional (.integral T))) L m) := by
    rw [hpush]
    have h0 : ∀ S, readFromLuaStack (.map .string (.optional (.integral T))) S fn (-1)
        = readMap readString (readOptional (readIntegral T)) S fn (-1) := fun _ => rfl
    rw [h0]
    have hsub : ∀ e ∈ m.filter (fun e => e.2.isSome), e ∈ m ∧ e.2.isSome = true := by
      intro e he
      simpa using List.mem_filter.1 he
    refine readMap_eq readString (readOptional (readIntegral T)) LuaValue.string
      (optionalSlot T) fn L (m.filter fun e => e.2.isSome) _ ?_ ?_ ?_ ?_ ?_
    · have := dictKeysSpec_strings ((m.filter fun e => e.2.isSome).map
        fun e => (e.1, optionalSlot T e.2))
      simpa [List.map_map, Function.comp_def] using this
    · intro e he
      obtain ⟨_, hs⟩ := hsub e he
      obtain ⟨x, hx⟩ := Option.isSome_iff_exists.1 hs
      rw [hx]; simp [optionalSlot]
    · intro L e he
      obtain ⟨hm, _⟩ := hsub e he
      simp [readString, lua_type, LuaValue.typeTag, LUA_TSTRING, lua_tostring, std_string,
        cstr_eq_self e.1 (hnul e hm)]
    · intro L e he
      obtain ⟨hm, hs⟩ := hsub e he
      obtain ⟨x, hx⟩ := Option.isSome_iff_exists.1 hs
      rw [hx]
      exact readOptional_integralSlot T x (hv e hm x hx) _ fn
    · exact (List.filter_sublist m).map Prod.fst |>.nodup hkeys
  refine ⟨hread, fun hall => ?_⟩
  have hf : (m.filter fun e => e.2.isSome) = m := by
    rw [List.filter_eq_self]; exact hall
  rw [hread, hf]

/-- C3, amended, on a map with one absent value. -/
theorem map_round_trip_witness :
    ([("a", some 1), ("b", none), ("c", some 3)].map Prod.fst).Nodup ∧
    readFromLuaStack (.map .string (.optional (.integral .int32)))
        (pushToLuaStack (.map .string (.optional (.integral .int32))) (stateOf [])
          [("a", some 1), ("b", none), ("c", some 3)]) "x" (-1)
      = (.ok [("a", some 1), ("c", some 3)],
          pushToLuaStack (.map .string (.optional (.integral .int32))) (stateOf [])
            [("a", some 1), ("b", none), ("c", some 3)]) :=
  ⟨by decide, (map_round_trip .int32 [("a", some 1), ("b", none), ("c", some 3)] (by decide)
    (by decide) (by decide) (stateOf []) "x").1⟩

/-! ## The probes leave the stack as it is -/

theorem isList_state (L : lua_State) (index : Int) : (isList L index).2 = L := by
  unfold isList
  by_cases ht : lua_istable L (lua_absindex L index) = true
  · simp only [ht, Bool.not_true, Bool.false_eq_true, if_false]
    by_cases h0 : (lua_tointeger (lua_len L (lua_absindex L index)) (-1) == 0) = true
    · simp only [h0, if_true]
      rfl
    · simp only [h0, if_false, lua_pushnil, isList_loop_eq]
      rfl
  · simp [ht]

theorem isDict_state (L : lua_State) (index : Int) : (isDict L index).2 = L := by
  unfold isDict
  by_cases ht : lua_istable L (lua_absindex L index) = true
  · simp only [ht, Bool.not_true, Bool.false_eq_true, if_false, lua_pushnil, isDict_loop_eq]
  · simp [ht]

/-- C20. For every stack and every index, `isList` and `isDict` return with the state of the
runtime, and so the stack, identical to the one at entry, whatever they answer: after the
rejection of a slot that is not a table, after the length probe of `isList`, and after an early
rejection inside the key enumeration, which pops the key and the value it holds. -/
theorem shape_probes_frame (L : lua_State) (index : Int) :
    (isList L index).2 = L ∧ (isDict L index).2 = L ∧
    (isList L index).2.stack = L.stack ∧ (isDict L index).2.stack = L.stack ∧
    (∀ (es : Entries) (x : LuaValue) (len maxKey : Int),
      (isList_loop len es maxKey (pushValue L x)).2 = L) ∧
    (∀ (es : Entries) (x : LuaValue), (isDict_loop es (pushValue L x)).2 = L) := by
  refine ⟨isList_state L index, isDict_state L index, by rw [isList_state],
    by rw [isDict_state], ?_, ?_⟩
  · intro es x len maxKey
    rw [isList_loop_eq]
  · intro es x
    rw [isDict_loop_eq]

/-! ## Writing a bool -/

/-- C11, evaluated: `pushToLuaStack` of the host bool `true` is served by the integral branch and
pushes the integer 1, for every bool the integer 0 or 1, while the branch written for `bool`
pushes a boolean. -/
theorem pushBool_pushes_integer :
    (pushToLuaStack (.integral .bool) (stateOf []) 1).stack = [.integer 1] ∧
    lua_type (pushToLuaStack (.integral .bool) (stateOf []) 1) (-1) = LUA_TNUMBER ∧
    (pushBoolBranch (stateOf []) 1).stack = [.boolean true] ∧
    (∀ (L : lua_State) (b : Bool),
      (pushToLuaStack (.integral .bool) L (if b then 1 else 0)).stack
        = .integer (if b then 1 else 0) :: L.stack) := by
  refine ⟨by rfl, by decide, by rfl, ?_⟩
  intro L b
  cases b <;> rfl

/-! ## Optional values -/

theorem lua_isnil_iff (L : lua_State) (index : Int) :
    lua_isnil L index = true ↔ index2value L index = some .nil := by
  unfold lua_isnil lua_type
  cases h : index2value L index with
  | none => simp [LUA_TNONE, LUA_TNIL]
  | some v => cases v <;> simp [LuaValue.typeTag, LUA_TNUMBER, LUA_TNIL, LUA_TBOOLEAN,
      LUA_TLIGHTUSERDATA, LUA_TSTRING, LUA_TFUNCTION, LUA_TUSERDATA, LUA_TTHREAD, LUA_TTABLE]

/-- C14. For every inner type `T` and every slot, `readFromLuaStack<optional<T>>` returns absent
on a nil slot and otherwise returns or fails as `readFromLuaStack<T>` does on the slot;
`pushToLuaStack` pushes one nil slot for an absent optional and what it pushes for the contained
value otherwise; an optional integer is read back as it was pushed. -/
theorem optional_converter (T : HostType) (L : lua_State) (fn : String) (index : Int) :
    (index2value L index = some .nil →
      readFromLuaStack (.optional T) L fn index = (.ok none, L)) ∧
    (index2value L index ≠ some .nil →
      readFromLuaStack (.optional T) L fn index =
        match readFromLuaStack T L fn index with
        | (.ok v, L') => (.ok (some v), L')
        | (.error m, L') => (.error m, L')) ∧
    (pushToLuaStack (.optional T) L none).stack = .nil :: L.stack ∧
    (∀ v, pushToLuaStack (.optional T) L (some v) = pushToLuaStack T L v) ∧
    (∀ (I : IntegralType) (o : Option Int), (∀ x, o = some x → I.InRange x) →
      readFromLuaStack (.optional (.integral I)) (pushToLuaStack (.optional (.integral I)) L o)
          fn (-1)
        = (.ok o, pushToLuaStack (.optional (.integral I)) L o)) := by
  have hread : readFromLuaStack (.optional T) L fn index
      = readOptional (readFromLuaStack T) L fn index := rfl
  refine ⟨?_, ?_, rfl, fun _ => rfl, ?_⟩
  · intro h
    rw [hread, readOptional, (lua_isnil_iff L index).2 h]
    rfl
  · intro h
    have hn : lua_isnil L index = false := by
      cases hc : lua_isnil L index with
      | false => rfl
      | true => exact absurd ((lua_isnil_iff L index).1 hc) h
    rw [hread, readOptional, hn]
    simp only [Bool.false_eq_true, if_false]
    rcases readFromLuaStack T L fn index with ⟨r, L'⟩
    cases r <;> rfl
  · intro I o ho
    cases o with
    | none =>
      have : readFromLuaStack (.optional (.integral I))
          (pushToLuaStack (.optional (.integral I)) L none) fn (-1)
          = readOptional (readIntegral I) (pushValue L .nil) fn (-1) := rfl
      rw [this]
      simp [readOptional, lua_isnil, lua_type, LuaValue.typeTag]
      rfl
    | some x =>
      have h1 : pushToLuaStack (.optional (.integral I)) L (some x)
          = pushValue L (optionalSlot I (some x)) := pushIntegral_eq I L x
      rw [h1]
      exact readOptional_integralSlot I x (ho x rfl) L fn

/-! ## Fixed-capacity string buffers -/

theorem std_string_some (s : String) (h : ∀ c ∈ s.data, c ≠ Char.ofNat 0) :
    std_string (some s) = s := by
  simp [std_string, cstr_eq_self s h]

/-- C13. For every capacity `N ≥ 1` and every string slot holding a string `s` of `n` bytes, none
of them NUL, `readFromLuaStack<pair<String<N>, bool>>` returns the first `min n (N - 1)` bytes of
`s` followed by the terminator, and a flag that is false exactly when `n ≥ N`;
`readFromLuaStack<String<N>>` returns the same bytes. -/
theorem buffer_truncation (N : Nat) (hN : 1 ≤ N) (s : String)
    (hs : ∀ c ∈ s.data, c ≠ Char.ofNat 0) (L : lua_State) (fn : String) (index : Int)
    (hslot : index2value L index = some (.string s)) :
    readFromLuaStack (.arrayPair (.integral .char) N .bool) L fn index
      = (.ok ((s.data.take (min s.length (N - 1))).map charValue ++ [0],
          if s.length ≥ N then 0 else 1), L) ∧
    readFromLuaStack (.array (.integral .char) N) L fn index
      = (.ok ((s.data.take (min s.length (N - 1))).map charValue ++ [0]), L) ∧
    ((s.data.take (min s.length (N - 1))).map charValue ++ [0]).length
      = min s.length (N - 1) + 1 := by
  have h1 : readFromLuaStack (.arrayPair (.integral .char) N .bool) L fn index
      = readStringBoolPair N L fn index := rfl
  have h2 : readFromLuaStack (.array (.integral .char) N) L fn index
      = readStringBuf N L fn index := rfl
  have hN0 : N ≠ 0 := by omega
  have htake : s.data.take (min s.length (N - 1)) = s.data.take (N - 1) := by
    have hl : s.length = s.data.length := rfl
    rw [List.take_eq_take, hl]
    omega
  have hty : lua_type L index = LUA_TSTRING := by
    unfold lua_type; rw [hslot]; rfl
  refine ⟨?_, ?_, ?_⟩
  · rw [h1, htake]
    unfold readStringBoolPair
    rw [hty]
    unfold snprintf lua_tostring
    rw [hslot]
    simp only [std_string_some s hs, bne_self_eq_false, Bool.false_eq_true, if_false, hN0]
    by_cases h : s.length ≥ N
    · have : ((s.length : Int) ≥ (N : Int)) := by exact_mod_cast h
      simp only [h, this, if_true]
    · have : ¬ ((s.length : Int) ≥ (N : Int)) := by
        intro hc; exact h (by exact_mod_cast hc)
      simp only [h, this, if_false]
  · rw [h2, htake]
    unfold readStringBuf
    rw [hty]
    unfold snprintf lua_tostring
    rw [hslot]
    simp only [std_string_some s hs, bne_self_eq_false, Bool.false_eq_true, if_false, hN0]
  · have hl : s.length = s.data.length := rfl
    rw [List.length_append, List.length_map, List.length_take, hl]
    simp

/-- C13, on the five bytes of `hello` read into a buffer of capacity 3: two bytes and the
terminator are stored and the flag is false. -/
theorem buffer_truncation_witness :
    1 ≤ 3 ∧
    readFromLuaStack (.arrayPair (.integral .char) 3 .bool) (stateOf [.string "hello"]) "x" (-1)
      = (.ok ([104, 101, 0], 0), stateOf [.string "hello"]) :=
  ⟨by decide, (buffer_truncation 3 (by decide) "hello" (by decide)
    (stateOf [.string "hello"]) "x" (-1) (by rfl)).1⟩


theorem pushElements_integral (I : IntegralType) (xs : List Int) (L : lua_State) :
    pushElements (pushIntegral I) xs 0 (pushValue L (.table [] (L.getn [])))
      = pushValue L (.table (sequenceEntries 0 (xs.map fun x => .integer (integralSlot I x)))
          (L.getn (sequenceEntries 0 (xs.map fun x => .integer (integralSlot I x))))) := by
  have hvals : ∀ w ∈ xs.map (fun x => LuaValue.integer (integralSlot I x)), w ≠ .nil := by
    intro w hw
    obtain ⟨x, _, rfl⟩ := List.mem_map.1 hw
    simp
  rw [pushElements_eq (pushIntegral I) (fun x => .integer (integralSlot I x))
    (pushIntegral_eq I) xs 0 L [], storeAll_eq_append _ 0 [] (by simp) hvals, List.nil_append]

theorem integralSlot_char (c : Int) (hc : IntegralType.char.InRange c) :
    integralSlot .char c = c := by
  unfold IntegralType.InRange IntegralType.minValue IntegralType.maxValue at hc
  simp [IntegralType.isSigned, IntegralType.bits] at hc
  simp [integralSlot, IntegralType.isSigned, IntegralType.cast, IntegralType.bits, wrapSigned]
  omega

theorem map_integralSlot_char (buf : List Int) (h : ∀ c ∈ buf, IntegralType.char.InRange c) :
    (buf.map fun x => LuaValue.integer (integralSlot .char x)) = buf.map LuaValue.integer := by
  apply List.map_congr_left
  intro c hc
  rw [integralSlot_char c (h c hc)]

theorem pushStringBuf_eq (N : Nat) (buf : List Int) (hlen : buf.length = N)
    (hbuf : ∀ c ∈ buf, IntegralType.char.InRange c) (L : lua_State) :
    (pushToLuaStack (.array (.integral .char) N) L buf).stack
      = .table (sequenceEntries 0 (buf.map LuaValue.integer))
          (L.getn (sequenceEntries 0 (buf.map LuaValue.integer))) :: L.stack ∧
    (pushToLuaStack (.arrayPair (.integral .char) N .bool) L (buf, 1)).stack
      = .table (sequenceEntries 0 ((buf.take 1).map LuaValue.integer))
          (L.getn (sequenceEntries 0 ((buf.take 1).map LuaValue.integer))) :: L.stack ∧
    (pushToLuaStack (.arrayPair (.integral .char) N .bool) L (buf, 0)).stack
      = .table [] (L.getn []) :: L.stack := by
  refine ⟨?_, ?_, by rfl⟩
  · have h0 : pushToLuaStack (.array (.integral .char) N) L buf
        = pushElements (pushIntegral .char) (buf.take N) 0
            (pushValue L (.table [] (L.getn []))) := rfl
    rw [h0, ← hlen, List.take_length, pushElements_integral, map_integralSlot_char buf hbuf]
    rfl
  · have h0 : pushToLuaStack (.arrayPair (.integral .char) N .bool) L (buf, 1)
        = pushElements (pushIntegral .char) (buf.take 1) 0
            (pushValue L (.table [] (L.getn []))) := rfl
    rw [h0, pushElements_integral,
      map_integralSlot_char (buf.take 1) (fun c hc => hbuf c (List.mem_of_mem_take hc))]
    rfl

/-! ## Readers leave the stack as it is when they return a value -/

theorem preserves_readBasic : PreservesState readBasic := by
  intro L fn index v L' h
  unfold readBasic at h
  simp only at h
  repeat' split at h
  all_goals exact (Prod.mk.inj h).2.symm

theorem preserves_readIntegral (T : IntegralType) : PreservesState (readIntegral T) := by
  intro L fn index v L' h
  unfold readIntegral at h
  simp only at h
  repeat' split at h
  all_goals exact (Prod.mk.inj h).2.symm

theorem preserves_readFloating : PreservesState readFloating := by
  intro L fn index v L' h
  unfold readFloating at h
  simp only at h
  repeat' split at h
  all_goals exact (Prod.mk.inj h).2.symm

theorem preserves_readString : PreservesState readString := by
  intro L fn index v L' h
  unfold readString at h
  split at h
  · simp at h
  · exact (Prod.mk.inj h).2.symm

theorem preserves_readStringBuf (N : Nat) : PreservesState (readStringBuf N) := by
  intro L fn index v L' h
  unfold readStringBuf at h
  split at h
  · simp at h
  · exact (Prod.mk.inj h).2.symm

theorem preserves_readStringBoolPair (N : Nat) : PreservesState (readStringBoolPair N) := by
  intro L fn index v L' h
  unfold readStringBoolPair at h
  split at h
  · simp at h
  · exact (Prod.mk.inj h).2.symm

theorem preserves_readOptional {α : Type} (read : lua_State → String → Int → Result α)
    (hr : PreservesState read) : PreservesState (readOptional read) := by
  intro L fn index v L' h
  unfold readOptional at h
  split at h
  · exact (Prod.mk.inj h).2.symm
  · split at h
    · rename_i w L1 heq
      have := hr L fn index w L1 heq
      rw [← this]
      exact (Prod.mk.inj h).2.symm
    · simp at h


theorem preserves_readVector_loop {α : Type} (read : lua_State → String → Int → Result α)
    (hr : PreservesState read) (fn : String) (index : Int) (count : Nat) (i : Int)
    (acc : List α) (L : lua_State) (v : List α) (L' : lua_State)
    (h : readVector_loop read fn index count i acc L = (.ok v, L')) : L' = L := by
  induction count generalizing i acc with
  | zero => exact (Prod.mk.inj h).2.symm
  | succ count ih =>
    unfold readVector_loop at h
    simp only at h
    split at h
    · simp at h
    · rename_i w L1 heq
      have h1 := hr _ fn (-1) w L1 heq
      rw [h1] at h
      simp only [lua_rawgeti, lua_pop_pushValue] at h
      exact ih _ _ h

theorem preserves_readVector {α : Type} (read : lua_State → String → Int → Result α)
    (hr : PreservesState read) : PreservesState (readVector read) := by
  intro L fn index v L' h
  unfold readVector at h
  have hs := isList_state L index
  rcases hl : isList L index with ⟨b, L1⟩
  rw [hl] at h hs
  simp only at hs
  subst hs
  cases b with
  | false => simp at h
  | true =>
    simp only at h
    split at h
    · simp at h
    · exact preserves_readVector_loop read hr fn index _ _ _ _ _ _ h

theorem preserves_readArrayPair_loop {α : Type} (read : lua_State → String → Int → Result α)
    (hr : PreservesState read) (size : Nat) (fn : String) (index : Int) (count : Nat) (i : Int)
    (acc : List α) (L : lua_State) (v : List α) (L' : lua_State)
    (h : readArrayPair_loop read size fn index count i acc L = (.ok v, L')) : L' = L := by
  induction count generalizing i acc with
  | zero => exact (Prod.mk.inj h).2.symm
  | succ count ih =>
    unfold readArrayPair_loop at h
    split at h
    · simp at h
    · simp only at h
      split at h
      · simp at h
      · rename_i w L1 heq
        have h1 := hr _ fn (-1) w L1 heq
        rw [h1] at h
        simp only [lua_rawgeti, lua_pop_pushValue] at h
        exact ih _ _ h

theorem preserves_readArrayPair {α : Type} (read : lua_State → String → Int → Result α)
    (hr : PreservesState read) (size : Nat) (M : IntegralType) :
    PreservesState (readArrayPair read size M) := by
  intro L fn index v L' h
  unfold readArrayPair at h
  have hs := isList_state L index
  rcases hl : isList L index with ⟨b, L1⟩
  rw [hl] at h hs
  simp only at hs
  subst hs
  cases b with
  | false => simp at h
  | true =>
    simp only at h
    split at h
    · simp at h
    · split at h
      · simp at h
      · rename_i first L2 heq
        have := preserves_readArrayPair_loop read hr size fn index _ _ _ _ _ _ heq
        rw [← this]
        exact (Prod.mk.inj h).2.symm

theorem preserves_readMap_loop {κ α : Type} [DecidableEq κ]
    (readK : lua_State → String → Int → Result κ) (readV : lua_State → String → Int → Result α)
    (hk : PreservesState readK) (hv : PreservesState readV) (fn : String) (es : Entries)
    (acc : List (κ × α)) (L : lua_State) (x : LuaValue) (v : List (κ × α)) (L' : lua_State)
    (h : readMap_loop readK readV fn es acc (pushValue L x) = (.ok v, L')) : L' = L := by
  induction es generalizing acc x with
  | nil =>
    simp only [readMap_loop, lua_next, lua_pop_pushValue] at h
    exact (Prod.mk.inj h).2.symm
  | cons e rest ih =>
    obtain ⟨k, w⟩ := e
    simp only [readMap_loop, lua_next, lua_pop_pushValue] at h
    split at h
    · split at h
      · simp at h
      · rename_i key L1 heq
        have h1 := hk _ fn (-2) key L1 heq
        subst h1
        split at h
        · simp at h
        · rename_i value L2 heq2
          have h2 := hv _ fn (-1) value L2 heq2
          subst h2
          exact ih _ _ h
    · exact ih _ _ h

theorem preserves_readMap {κ α : Type} [DecidableEq κ]
    (readK : lua_State → String → Int → Result κ) (readV : lua_State → String → Int → Result α)
    (hk : PreservesState readK) (hv : PreservesState readV) :
    PreservesState (readMap readK readV) := by
  intro L fn index v L' h
  unfold readMap at h
  have hs := isDict_state L index
  rcases hl : isDict L index with ⟨b, L1⟩
  rw [hl] at h hs
  simp only at hs
  subst hs
  cases b with
  | false => simp at h
  | true =>
    simp only [lua_pushnil, readMap_count_state] at h
    exact preserves_readMap_loop readK readV hk hv fn _ _ _ _ _ _ h

theorem preserves_readKey (K : KeyType) : PreservesState (readKey K) := by
  cases K with
  | integral T => exact preserves_readIntegral T
  | string => exact preserves_readString

theorem preserves_readFromLuaStack (T : HostType) : PreservesState (readFromLuaStack T) := by
  induction T with
  | basic => exact preserves_readBasic
  | optional T ih => exact preserves_readOptional _ ih
  | integral I => exact preserves_readIntegral I
  | floating => exact preserves_readFloating
  | string => exact preserves_readString
  | array T N ih =>
    intro L fn index v L' h
    cases T with
    | integral I =>
      cases I <;> first
        | exact preserves_readStringBuf N L fn index v L' h
        | (simp [readFromLuaStack] at h)
    | _ => simp [readFromLuaStack] at h
  | arrayPair T N M ih =>
    intro L fn index v L' h
    by_cases hc : T = .integral .char ∧ M = .bool
    · obtain ⟨rfl, rfl⟩ := hc
      exact preserves_readStringBoolPair N L fn index v L' h
    · have : readFromLuaStack (.arrayPair T N M) = readArrayPair (readFromLuaStack T) N M := by
        cases T with
        | integral I =>
          cases I <;> cases M <;> first | rfl | exact absurd ⟨rfl, rfl⟩ hc
        | _ => rfl
      rw [this] at h
      exact preserves_readArrayPair _ ih N M L fn index v L' h
  | vector T ih => exact preserves_readVector _ ih
  | map K V ih => exact preserves_readMap _ _ (preserves_readKey K) ih

/-! ## Reading a sequence element by element -/

theorem tableSet_integer_fresh (es : Entries) (k : Int) (v : LuaValue)
    (hfresh : ∀ e ∈ es, rawKeyEq e.1 (.integer k) = false) :
    tableSet es (.integer k) v = if v.isNil then es else es ++ [(.integer k, v)] := by
  have hany : (es.any fun e => rawKeyEq e.1 (.integer k)) = false := by
    rw [List.any_eq_false]
    intro e he
    simp [hfresh e he]
  have hfilter : es.filter (fun e => !rawKeyEq e.1 (.integer k)) = es := by
    rw [List.filter_eq_self]
    intro e he
    simp [hfresh e he]
  cases v <;> simp [tableSet, normKey, hany, hfilter, LuaValue.isNil]

theorem storeAll_eq_sparse (vals : List LuaValue) (i : Int) (es : Entries)
    (hes : ∀ e ∈ es, ∃ k : Int, e.1 = .integer k ∧ k ≤ i) :
    storeAll es i vals = es ++ sparseEntries i vals := by
  induction vals generalizing i es with
  | nil => simp [storeAll, sparseEntries]
  | cons v rest ih =>
    have hfresh : ∀ e ∈ es, rawKeyEq e.1 (.integer (i + 1)) = false := by
      intro e he
      obtain ⟨k, hk, hle⟩ := hes e he
      rw [hk]
      simp only [rawKeyEq, beq_eq_false_iff_ne, ne_eq]
      omega
    rw [storeAll, tableSet_integer_fresh es (i + 1) v hfresh]
    by_cases hn : v.isNil = true
    · simp only [hn, if_true, sparseEntries]
      exact ih (i + 1) es (fun e he => by
        obtain ⟨k, hk, hle⟩ := hes e he
        exact ⟨k, hk, by omega⟩)
    · simp only [hn, if_false, sparseEntries]
      rw [ih (i + 1) _ ?_]
      · simp
      · intro e he
        rcases List.mem_append.1 he with h | h
        · obtain ⟨k, hk, hle⟩ := hes e h
          exact ⟨k, hk, by omega⟩
        · rw [List.mem_singleton.1 h]
          exact ⟨i + 1, rfl, le_refl _⟩

theorem tableGet_sparseEntries_outside (vals : List LuaValue) (i k : Int)
    (hk : k ≤ i ∨ i + vals.length < k) :
    tableGet (sparseEntries i vals) (.integer k) = .nil := by
  induction vals generalizing i with
  | nil => simp [sparseEntries, tableGet]
  | cons v rest ih =>
    have hne : ¬ (i + 1 = k) := by
      simp only [List.length_cons] at hk; push_cast at hk; omega
    have := ih (i + 1) (by simp only [List.length_cons] at hk; push_cast at hk; omega)
    unfold sparseEntries
    split
    · exact this
    · simp only [tableGet_cons, rawKeyEq, beq_iff_eq, hne, if_false]
      exact this

theorem tableGet_sparseEntries (vals : List LuaValue) (i : Int) (j : Nat)
    (hj : j < vals.length) :
    tableGet (sparseEntries i vals) (.integer (i + 1 + j)) = vals[j] := by
  induction vals generalizing i j with
  | nil => simp at hj
  | cons v rest ih =>
    unfold sparseEntries
    cases j with
    | zero =>
      by_cases hn : v.isNil = true
      · simp only [hn, if_true, Nat.cast_zero, add_zero, List.getElem_cons_zero]
        rw [tableGet_sparseEntries_outside rest (i + 1) (i + 1) (Or.inl (le_refl _))]
        exact ((isNil_iff v).1 hn).symm
      · simp [hn, tableGet_cons, rawKeyEq]
    | succ j =>
      have hne : ¬ (i + 1 = i + 1 + ((j + 1 : Nat) : Int)) := by omega
      have hj2 : j < rest.length := by simpa using hj
      have := ih (i + 1) j hj2
      have he : i + 1 + ((j + 1 : Nat) : Int) = i + 1 + 1 + (j : Int) := by push_cast; ring
      by_cases hn : v.isNil = true
      · simp only [hn, if_true, List.getElem_cons_succ]
        rw [he]; exact this
      · rw [if_neg hn]
        simp only [tableGet_cons, rawKeyEq, beq_iff_eq, hne, if_false,
          List.getElem_cons_succ]
        rw [he]; exact this

theorem sparseEntries_keys (vals : List LuaValue) (i : Int) (hi : 0 ≤ i) :
    ∀ e ∈ sparseEntries i vals, PositiveIntegerKey e.1 := by
  induction vals generalizing i with
  | nil => simp [sparseEntries]
  | cons v rest ih =>
    intro e he
    unfold sparseEntries at he
    split at he
    · exact ih (i + 1) (by omega) e he
    · rcases List.mem_cons.1 he with rfl | he
      · exact ⟨i + 1, rfl, by omega⟩
      · exact ih (i + 1) (by omega) e he

theorem largestKey_sparseEntries (vals : List LuaValue) (i : Int) (hi : 0 ≤ i)
    (hne : vals ≠ []) (hlast : (vals.getLast hne).isNil = false) :
    largestKey (sparseEntries i vals) = i + vals.length := by
  induction vals generalizing i with
  | nil => exact absurd rfl hne
  | cons v rest ih =>
    unfold sparseEntries
    by_cases hr : rest = []
    · subst hr
      simp only [List.getLast_singleton] at hlast
      simp [hlast, sparseEntries, largestKey]
      omega
    · have hl : (rest.getLast hr).isNil = false := by
        rw [List.getLast_cons hr] at hlast; exact hlast
      have := ih (i + 1) (by omega) hr hl
      by_cases hn : v.isNil = true
      · simp only [hn, if_true, this, List.length_cons]
        push_cast; ring
      · simp only [hn, if_false, largestKey, this, List.length_cons]
        push_cast
        omega

theorem sparseEntries_eq_sequenceEntries (vals : List LuaValue) (i : Int)
    (h : ∀ v ∈ vals, v ≠ .nil) : sparseEntries i vals = sequenceEntries i vals := by
  induction vals generalizing i with
  | nil => rfl
  | cons v rest ih =>
    have hn : v.isNil = false := by
      cases hv : v.isNil with
      | false => rfl
      | true => exact absurd ((isNil_iff v).1 hv) (h v (List.mem_cons_self _ _))
    simp only [sparseEntries, hn, Bool.false_eq_true, if_false, sequenceEntries]
    rw [ih (i + 1) (fun w hw => h w (List.mem_cons_of_mem _ hw))]


theorem optionalSlot_isNil (I : IntegralType) (o : Option Int) :
    (optionalSlot I o).isNil = !o.isSome := by
  cases o <;> rfl

theorem readOptional_optionalSlot (I : IntegralType) (o : Option Int)
    (ho : ∀ x, o = some x → I.InRange x) (L : lua_State) (fn : String) :
    readOptional (readIntegral I) (pushValue L (optionalSlot I o)) fn (-1)
      = (.ok o, pushValue L (optionalSlot I o)) := by
  cases o with
  | none =>
    simp [readOptional, optionalSlot, lua_isnil, lua_type, LuaValue.typeTag]
  | some x => exact readOptional_integralSlot I x (ho x rfl) L fn

theorem pushVector_optional_eq (I : IntegralType) (v : List (Option Int)) (L : lua_State) :
    pushToLuaStack (.vector (.optional (.integral I))) L v
      = pushValue L (.table (sparseEntries 0 (v.map (optionalSlot I)))
          (L.getn (sparseEntries 0 (v.map (optionalSlot I))))) := by
  have hpush : pushToLuaStack (.vector (.optional (.integral I))) L v
      = pushSequence (pushOptional (pushIntegral I)) L v.length v := rfl
  rw [hpush, pushSequence_eq (pushOptional (pushIntegral I)) (optionalSlot I)
    (pushOptional_eq I) v L, storeAll_eq_sparse _ 0 [] (by simp), List.nil_append]

/-- C17, as stated, fails: the list of a present 1 followed by an absent element is pushed as a
table of length 1 and read back as the one-element list of the present 1. -/
theorem optional_sequence_counterexample :
    (readFromLuaStack (.vector (.optional (.integral .int32)))
      (pushToLuaStack (.vector (.optional (.integral .int32))) (stateOf []) [some 1, none])
      "x" (-1)).1 = .ok [some 1] ∧
    (readFromLuaStack (.vector (.optional (.integral .int32)))
      (pushToLuaStack (.vector (.optional (.integral .int32))) (stateOf []) [some 1, none])
      "x" (-1)).1 ≠ .ok [some 1, none] := by
  have h : (readFromLuaStack (.vector (.optional (.integral .int32)))
      (pushToLuaStack (.vector (.optional (.integral .int32))) (stateOf []) [some 1, none])
      "x" (-1)).1 = .ok [some 1] := by rfl
  refine ⟨h, ?_⟩
  rw [h]
  simp

/-- C17, amended. For every list `v` of optional integers that is empty or ends with a present
element, when the runtime reports the number of elements of `v` as the length of the pushed
table, `isList` accepts that table and `readFromLuaStack` at the same type returns `v`, with the
absent elements at the same positions, and leaves the stack as it is.  A runtime whose length
primitive returns a border reports that length whenever no element of `v` is absent. -/
theorem optional_sequence_round_trip (I : IntegralType) (v : List (Option Int))
    (hv : ∀ o ∈ v, ∀ x, o = some x → I.InRange x)
    (hlast : ∀ h : v ≠ [], (v.getLast h).isSome = true) (L : lua_State) (fn : String) :
    (lua_rawlen (pushToLuaStack (.vector (.optional (.integral I))) L v) (-1) = v.length →
      (isList (pushToLuaStack (.vector (.optional (.integral I))) L v) (-1)).1 = true ∧
      readFromLuaStack (.vector (.optional (.integral I)))
          (pushToLuaStack (.vector (.optional (.integral I))) L v) fn (-1)
        = (.ok v, pushToLuaStack (.vector (.optional (.integral I))) L v)) ∧
    ((∀ es, IsBorder es (L.getn es)) → (∀ o ∈ v, o.isSome = true) →
      lua_rawlen (pushToLuaStack (.vector (.optional (.integral I))) L v) (-1) = v.length) := by
  rw [pushVector_optional_eq I v L]
  set vals := v.map (optionalSlot I) with hvals
  have hvl : vals.length = v.length := by simp [hvals]
  refine ⟨?_, ?_⟩
  · intro hlen
    have hlen2 : L.getn (sparseEntries 0 vals) = v.length := by
      simpa [lua_rawlen, objLength] using hlen
    rw [hlen2]
    have hshape : isListSpec (some (.table (sparseEntries 0 vals) v.length)) = true := by
      rw [isListSpec_table]
      by_cases hne : v = []
      · left; simp [hne]
      · right
        have hne2 : vals ≠ [] := by
          intro hc; apply hne; simpa [hvals] using hc
        have hl : (vals.getLast hne2).isNil = false := by
          have : vals.getLast hne2 = optionalSlot I (v.getLast hne) := by
            simp [hvals, List.getLast_map]
          rw [this, optionalSlot_isNil, hlast hne]
          rfl
        refine ⟨sparseEntries_keys vals 0 (le_refl 0), ?_⟩
        rw [largestKey_sparseEntries vals 0 (le_refl 0) hne2 hl, hvl]
        simp
    have hlist : isList (pushValue L (.table (sparseEntries 0 vals) v.length)) (-1)
        = (true, pushValue L (.table (sparseEntries 0 vals) v.length)) := by
      rw [isList_eq _ _ (acceptable_top _ _), index2value_top, hshape]
    refine ⟨by rw [hlist], ?_⟩
    have hloop := readVector_loop_eq (readOptional (readIntegral I)) (optionalSlot I) fn L
      (sparseEntries 0 vals) v.length [] v [] ?_ ?_
    · have hread : readFromLuaStack (.vector (.optional (.integral I)))
          (pushValue L (.table (sparseEntries 0 vals) v.length)) fn (-1)
          = readVector (readOptional (readIntegral I))
              (pushValue L (.table (sparseEntries 0 vals) v.length)) fn (-1) := rfl
      rw [hread]
      unfold readVector
      rw [hlist]
      simp only [luaL_checktype_table, lua_type, index2value_top, LuaValue.typeTag, lua_rawlen,
        objLength]
      simpa using hloop
    · intro j hj
      simp only [List.nil_append] at hj ⊢
      have hj2 : j < vals.length := by omega
      have := tableGet_sparseEntries vals 0 j hj2
      have he : (0 : Int) + 1 + (j : Int) = (j : Int) + 1 := by ring
      rw [he] at this
      rw [this]
      simp [hvals]
    · intro L x hx
      exact readOptional_optionalSlot I x (hv x (by simpa using hx)) L fn
  · intro hgetn hall
    have hnn : ∀ w ∈ vals, w ≠ .nil := by
      intro w hw
      obtain ⟨o, ho, rfl⟩ := List.mem_map.1 hw
      obtain ⟨x, hx⟩ := Option.isSome_iff_exists.1 (hall o ho)
      rw [hx]; simp [optionalSlot]
    have hb := hgetn (sparseEntries 0 vals)
    rw [sparseEntries_eq_sequenceEntries vals 0 hnn] at hb ⊢
    have := border_sequenceEntries vals hnn _ hb
    simp only [lua_rawlen, index2value_top, objLength]
    rw [this, hvl]

/-- C17, amended, on the list of an absent element followed by a present 2, for which the
smallest border is not the number of elements: the round trip is made on a runtime that reports
the length 2. -/
theorem optional_sequence_round_trip_witness :
    (∀ h : [(none : Option Int), some 2] ≠ [], ([(none : Option Int), some 2].getLast h).isSome
      = true) ∧
    readFromLuaStack (.vector (.optional (.integral .int32)))
        (pushToLuaStack (.vector (.optional (.integral .int32)))
          { stateOf [] with getn := fun es => es.length + 1 } [none, some 2]) "x" (-1)
      = (.ok [none, some 2], pushToLuaStack (.vector (.optional (.integral .int32)))
          { stateOf [] with getn := fun es => es.length + 1 } [none, some 2]) :=
  ⟨by simp, ((optional_sequence_round_trip .int32 [none, some 2] (by decide) (by simp)
    { stateOf [] with getn := fun es => es.length + 1 } "x").1 (by rfl)).2⟩

/-! ## Calls of a name that is not bound to a function -/

theorem lua_isfunction_top (L : lua_State) (v : LuaValue) :
    lua_isfunction (pushValue L v) (-1) = true ↔ ∃ p, v = .function p := by
  unfold lua_isfunction lua_type
  rw [index2value_top]
  cases v <;> simp [LuaValue.typeTag, LUA_TNUMBER, LUA_TNIL, LUA_TBOOLEAN,
    LUA_TLIGHTUSERDATA, LUA_TSTRING, LUA_TFUNCTION, LUA_TUSERDATA, LUA_TTHREAD, LUA_TTABLE]

theorem cstr_no_nul (s : String) : ∀ c ∈ (cstr s).data, c ≠ Char.ofNat 0 := by
  intro c hc
  have := List.mem_takeWhile_imp hc
  simpa using this

theorem what_unresolved (name : String) (h : ∀ c ∈ name.data, c ≠ Char.ofNat 0) :
    what ("Function '" ++ name ++ "' is not a valid Lua function.")
      = "Function '" ++ name ++ "' is not a valid Lua function." := by
  unfold what
  apply cstr_eq_self
  intro c hc
  simp only [String.data_append, List.mem_append] at hc
  rcases hc with (hc | hc) | hc
  · revert c
    decide
  · exact h c hc
  · revert c
    decide

theorem unresolved_calls (L : lua_State) (functionName : string_view) (args : List HostArg)
    (T : HostType) (Ts : List HostType)
    (hnf : ∀ p, L.globals (cstr functionName.data) ≠ .function p) :
    callVoid L functionName args
      = (.error (what ("Function '" ++ functionName.content ++ "' is not a valid Lua function.")),
          L) ∧
    call T L functionName args
      = (.error (what ("Function '" ++ functionName.content ++ "' is not a valid Lua function.")),
          L) ∧
    callMultiReturn Ts L functionName args
      = (.error (what ("Function '" ++ functionName.content ++ "' is not a valid Lua function.")),
          L) := by
  have hf : lua_isfunction (lua_getglobal L functionName.data) (-1) = false := by
    cases h : lua_isfunction (lua_getglobal L functionName.data) (-1) with
    | false => rfl
    | true =>
      obtain ⟨p, hp⟩ := (lua_isfunction_top L _).1 h
      exact absurd hp (hnf p)
  refine ⟨?_, ?_, ?_⟩
  · simp only [callVoid, hf, Bool.not_false, if_true]
    rfl
  · simp only [call, hf, Bool.not_false, if_true]
    rfl
  · simp only [callMultiReturn, hf, Bool.not_false, if_true]
    rfl

/-- C19. The name is looked up through `functionName.data()`, which `lua_getglobal` reads as a
zero-terminated string.  On the view of the two characters `pa` inside the bytes `pair`, a name
that has no global, `callVoid` and `call` find the function `pair`, call it and return: they do
not fail.  On the name made of the bytes `no`, NUL, `pe`, which has no global either, the call
fails and leaves the stack as it was, and the `what()` of the exception is `Function 'no`.  For
every view, when the string read at `data()` names no function, the three calls fail with the
`what()` of the message built on the characters of the view, push no argument and return with
the state, and so the stack, as it was.  When moreover the string read at `data()` is the name,
that is, the name holds no NUL byte and is followed by one, the description is the whole
`Function '<name>' is not a valid Lua function.`. -/
theorem unresolved_function :
    (pairState.globals "pa" = LuaValue.nil ∧
      callVoid pairState ⟨"pa", "ir"⟩ [] = (.ok (), pairState) ∧
      call (.integral .int32) pairState ⟨"pa", "ir"⟩ [] = (.ok 10, pairState)) ∧
    (pairState.globals "no\x00pe" = LuaValue.nil ∧
      callVoid pairState (viewOf "no\x00pe") [] = (.error "Function 'no", pairState)) ∧
    (∀ (L : lua_State) (functionName : string_view) (args : List HostArg) (T : HostType)
        (Ts : List HostType),
      (∀ p, L.globals (cstr functionName.data) ≠ .function p) →
      callVoid L functionName args
        = (.error
            (what ("Function '" ++ functionName.content ++ "' is not a valid Lua function.")),
            L) ∧
      call T L functionName args
        = (.error
            (what ("Function '" ++ functionName.content ++ "' is not a valid Lua function.")),
            L) ∧
      callMultiReturn Ts L functionName args
        = (.error
            (what ("Function '" ++ functionName.content ++ "' is not a valid Lua function.")),
            L)) ∧
    (∀ (L : lua_State) (functionName : string_view) (args : List HostArg) (T : HostType)
        (Ts : List HostType),
      cstr functionName.data = functionName.content →
      (∀ p, L.globals functionName.content ≠ .function p) →
      callVoid L functionName args
        = (.error ("Function '" ++ functionName.content ++ "' is not a valid Lua function."),
            L) ∧
      call T L functionName args
        = (.error ("Function '" ++ functionName.content ++ "' is not a valid Lua function."),
            L) ∧
      callMultiReturn Ts L functionName args
        = (.error ("Function '" ++ functionName.content ++ "' is not a valid Lua function."),
            L)) := by
  refine ⟨⟨by rfl, by rfl, by rfl⟩, ⟨by rfl, by rfl⟩, ?_, ?_⟩
  · intro L functionName args T Ts hnf
    exact unresolved_calls L functionName args T Ts hnf
  · intro L functionName args T Ts hname hnf
    have hnul : ∀ c ∈ functionName.content.data, c ≠ Char.ofNat 0 := by
      rw [← hname]
      exact cstr_no_nul _
    have h := unresolved_calls L functionName args T Ts (by rw [hname]; exact hnf)
    rw [what_unresolved functionName.content hnul] at h
    exact h

/-! ## Every push fills exactly one slot -/

theorem pushElements_eq_getn {α : Type} (g : Entries → Nat)
    (pushInner : lua_State → α → lua_State) (enc : α → LuaValue)
    (hpush : ∀ L, L.getn = g → ∀ v, pushInner L v = pushValue L (enc v)) (xs : List α)
    (i : Int) (L : lua_State) (hL : L.getn = g) (es : Entries) :
    pushElements pushInner xs i (pushValue L (.table es (g es)))
      = pushValue L (.table (storeAll es i (xs.map enc)) (g (storeAll es i (xs.map enc)))) := by
  induction xs generalizing i es with
  | nil => rfl
  | cons x rest ih =>
    simp only [pushElements, hpush (pushValue L (.table es (g es))) hL, lua_rawseti_top,
      List.map_cons, storeAll, hL]
    exact ih _ _

theorem pushEntries_eq_getn {κ α : Type} (g : Entries → Nat)
    (pushK : lua_State → κ → lua_State) (pushV : lua_State → α → lua_State)
    (encK : κ → LuaValue) (encV : α → LuaValue)
    (hK : ∀ L, L.getn = g → ∀ k, pushK L k = pushValue L (encK k))
    (hV : ∀ L, L.getn = g → ∀ v, pushV L v = pushValue L (encV v))
    (m : List (κ × α)) (L : lua_State) (hL : L.getn = g) (es : Entries) :
    pushEntries pushK pushV m (pushValue L (.table es (g es)))
      = pushValue L (.table (storePairs es (m.map fun e => (encK e.1, encV e.2)))
          (g (storePairs es (m.map fun e => (encK e.1, encV e.2))))) := by
  induction m generalizing es with
  | nil => rfl
  | cons e rest ih =>
    obtain ⟨k, v⟩ := e
    have h1 := hK (pushValue L (.table es (g es))) hL k
    have h2 := hV (pushValue (pushValue L (.table es (g es))) (encK k)) hL v
    simp only [pushEntries, h1, h2, lua_settable_top, List.map_cons, storePairs, hL]
    exact ih _

theorem pushKey_eq (K : KeyType) (L : lua_State) (k : K.denote) :
    pushKey K L k = pushValue L (encodeKey K k) := by
  cases K with
  | integral I => exact pushIntegral_eq I L k
  | string => rfl

theorem pushToLuaStack_eq (g : Entries → Nat) (T : HostType) :
    ∀ L, L.getn = g → ∀ v, pushToLuaStack T L v = pushValue L (encodeValue g T v) := by
  induction T with
  | basic =>
    intro L _ v
    cases v with
    | integer i => exact pushIntegral_eq .int64 L i
    | number x => rfl
    | boolean b => exact pushIntegral_eq .bool L _
    | string s => rfl
    | nullopt => rfl
  | optional T ih =>
    intro L hL v
    cases v with
    | none => rfl
    | some x => exact ih L hL x
  | integral I => intro L _ v; exact pushIntegral_eq I L v
  | floating => intro L _ v; rfl
  | string => intro L _ v; rfl
  | array T N ih =>
    intro L hL v
    have h0 : pushToLuaStack (.array T N) L v
        = pushElements (pushToLuaStack T) (v.take N) 0
            (pushValue L (.table [] (L.getn []))) := rfl
    rw [h0, hL, pushElements_eq_getn g (pushToLuaStack T) (encodeValue g T) ih _ 0 L hL []]
    rfl
  | arrayPair T N M ih =>
    intro L hL v
    have h0 : pushToLuaStack (.arrayPair T N M) L v
        = pushElements (pushToLuaStack T) (v.1.take (IntegralType.uint64.cast v.2).toNat) 0
            (pushValue L (.table [] (L.getn []))) := rfl
    rw [h0, hL, pushElements_eq_getn g (pushToLuaStack T) (encodeValue g T) ih _ 0 L hL []]
    rfl
  | vector T ih =>
    intro L hL v
    have h0 : pushToLuaStack (.vector T) L v
        = pushElements (pushToLuaStack T) (v.take v.length) 0
            (pushValue L (.table [] (L.getn []))) := rfl
    rw [h0, hL, List.take_length,
      pushElements_eq_getn g (pushToLuaStack T) (encodeValue g T) ih _ 0 L hL []]
    rfl
  | map K V ih =>
    intro L hL v
    have h0 : pushToLuaStack (.map K V) L v
        = pushEntries (pushKey K) (pushToLuaStack V) v
            (pushValue L (.table [] (L.getn []))) := rfl
    rw [h0, hL, pushEntries_eq_getn g (pushKey K) (pushToLuaStack V) (encodeKey K)
      (encodeValue g V) (fun L _ k => pushKey_eq K L k) ih v L hL []]
    rfl

theorem pushArgs_eq (args : List HostArg) (L : lua_State) :
    pushArgs args L
      = { L with stack := (args.map (encodeArg L.getn)).reverse ++ L.stack } := by
  induction args generalizing L with
  | nil => rfl
  | cons a rest ih =>
    obtain ⟨T, v⟩ := a
    rw [pushArgs, ih, pushToLuaStack_eq L.getn T L rfl v]
    simp [pushValue, encodeArg]


/-! ## Several return values -/

theorem processMultiReturnImpl_eq (Ts : List HostType) (S : lua_State) (numReturns : Int)
    (fn : String) (Is : Nat) :
    (processMultiReturnImpl Ts S numReturns fn Is).1 = readComponents Ts S numReturns fn Is ∧
    (∀ t, (processMultiReturnImpl Ts S numReturns fn Is).1 = .ok t →
      (processMultiReturnImpl Ts S numReturns fn Is).2 = S) := by
  induction Ts generalizing Is with
  | nil => exact ⟨rfl, fun _ _ => rfl⟩
  | cons T Ts ih =>
    unfold processMultiReturnImpl readComponents
    rcases hres : readFromLuaStack T S fn (-(numReturns - Is)) with ⟨r, S1⟩
    cases r with
    | error m => exact ⟨rfl, fun t ht => by simp at ht⟩
    | ok v =>
      have hs := preserves_readFromLuaStack T S fn _ v S1 hres
      subst hs
      obtain ⟨h1, h2⟩ := ih (Is + 1)
      simp only
      rcases hrest : processMultiReturnImpl Ts S1 numReturns fn (Is + 1) with ⟨r2, S2⟩
      rw [hrest] at h1 h2
      simp only at h1 h2
      rw [← h1]
      cases r2 with
      | error m => exact ⟨rfl, fun t ht => by simp at ht⟩
      | ok vs => exact ⟨rfl, fun t _ => h2 vs rfl⟩

theorem index2value_result (results base : List LuaValue) (L : lua_State) (i : Nat)
    (hi : i < results.length) :
    index2value { L with stack := results.reverse ++ base } (-((results.length : Int) - i))
      = some results[i] := by
  unfold index2value stackPos lua_gettop
  have h1 : ¬ (0 < -((results.length : Int) - i) ∧
      -((results.length : Int) - i) ≤ ((results.reverse ++ base).length : Int)) := by omega
  have h2 : -((results.length : Int) - i) < 0 ∧
      - -((results.length : Int) - i) ≤ ((results.reverse ++ base).length : Int) := by
    simp only [List.length_append, List.length_reverse]
    push_cast
    omega
  simp only [h1, h2, and_self, if_true, if_false]
  have hp : (- -((results.length : Int) - i)).toNat - 1 = results.length - 1 - i := by omega
  rw [hp, List.getElem?_append_left (by simp; omega), List.getElem?_reverse (by omega)]
  have : results.length - 1 - (results.length - 1 - i) = i := by omega
  rw [this, List.getElem?_eq_getElem hi]

theorem adjustResults_exact (results : List LuaValue) :
    adjustResults results results.length = results := by
  simp [adjustResults]

theorem callMultiReturn_eq (Ts : List HostType) (L : lua_State) (functionName : string_view)
    (args : List HostArg) (p : Nat) (results : List LuaValue)
    (hf : L.globals (cstr functionName.data) = .function p)
    (hcall : L.closures p (args.map (encodeArg L.getn)) = .ok results)
    (hN : results.length = Ts.length) :
    callMultiReturn Ts L functionName args
      = match processMultiReturn Ts { L with stack := results.reverse ++ L.stack }
            (returnLabel functionName.data) Ts.length with
        | (.error m, S) => (.error m, S)
        | (.ok result, S) => (.ok result, lua_pop S Ts.length) := by
  have hfun : lua_isfunction (lua_getglobal L functionName.data) (-1) = true := by
    unfold lua_getglobal
    rw [hf]
    exact (lua_isfunction_top L _).2 ⟨p, rfl⟩
  have hpcall : lua_pcall (pushArgs args (lua_getglobal L functionName.data)) args.length Ts.length
      = (LUA_OK, { L with stack := results.reverse ++ L.stack }) := by
    rw [pushArgs_eq]
    unfold lua_pcall lua_getglobal
    rw [hf]
    have hlen : ((args.map (encodeArg L.getn)).reverse).length = args.length := by simp
    simp only [pushValue]
    rw [List.drop_left' hlen, List.take_left' hlen, List.reverse_reverse]
    simp only [hcall, ← hN, adjustResults_exact]
  unfold callMultiReturn
  simp only [hfun, Bool.not_true, Bool.false_eq_true, if_false, hpcall, bne_self_eq_false]


/-- C18. When the global of the name is a function that, called on the pushed arguments,
returns as many values as there are declared return types, `callMultiReturn` reads them on the
stack the call leaves, where the value of position `i` is in the slot of offset `-(N - i)`: the
component of position `i` of the tuple is `readFromLuaStack` at the type of position `i` on that
slot, in the order of the declaration.  A call that returns a tuple has popped the `N` values:
the state of the runtime, and so the stack, is the one before the call. -/
theorem multi_return_order (Ts : List HostType) (L : lua_State) (functionName : string_view)
    (args : List HostArg) (p : Nat) (results : List LuaValue)
    (hf : L.globals (cstr functionName.data) = .function p)
    (hcall : L.closures p (args.map (encodeArg L.getn)) = .ok results)
    (hN : results.length = Ts.length) :
    (∀ (i : Nat) (hi : i < results.length),
      index2value { L with stack := results.reverse ++ L.stack } (-((Ts.length : Int) - i))
        = some results[i]) ∧
    (∀ t, (callMultiReturn Ts L functionName args).1 = .ok t ↔
      readComponents Ts { L with stack := results.reverse ++ L.stack } Ts.length
          (returnLabel functionName.data) 0 = .ok t) ∧
    (∀ t, (callMultiReturn Ts L functionName args).1 = .ok t →
      callMultiReturn Ts L functionName args = (.ok t, L)) := by
  have hcm := callMultiReturn_eq Ts L functionName args p results hf hcall hN
  obtain ⟨h1, h2⟩ := processMultiReturnImpl_eq Ts { L with stack := results.reverse ++ L.stack }
    Ts.length (returnLabel functionName.data) 0
  have hpop : lua_pop { L with stack := results.reverse ++ L.stack } Ts.length = L := by
    unfold lua_pop
    have hlen : results.reverse.length = Ts.length := by simp [hN]
    simp only [List.drop_left' hlen]
  unfold processMultiReturn at hcm
  rcases hres : processMultiReturnImpl Ts { L with stack := results.reverse ++ L.stack }
    Ts.length (returnLabel functionName.data) 0 with ⟨r, S⟩
  rw [hres] at hcm h1 h2
  simp only at h1 h2
  refine ⟨?_, ?_, ?_⟩
  · intro i hi
    rw [← hN]
    exact index2value_result results L.stack L i hi
  · intro t
    rw [hcm, ← h1]
    cases r <;> simp
  · intro t ht
    rw [hcm] at ht ⊢
    cases r with
    | error m => simp at ht
    | ok v =>
      simp only [Except.ok.injEq] at ht
      subst ht
      rw [h2 v rfl]
      simp only [hpop]

/-- C18, on the declared types of a 32-bit integer and a string, with a guest function that
returns 10 and `ok`: the tuple is 10 and `ok`, in that order, and the stack is as before. -/
theorem multi_return_order_witness :
    pairState.globals (cstr (viewOf "pair").data) = .function 0 ∧
    callMultiReturn [.integral .int32, .string] pairState (viewOf "pair") []
      = (.ok (10, "ok", ()), pairState) :=
  ⟨by rfl, (multi_return_order [.integral .int32, .string] pairState (viewOf "pair") [] 0
    [.integer 10, .string "ok"] (by rfl) (by rfl) (by rfl)).2.2 (10, "ok", ()) (by rfl)⟩

/-! ## Narrowing reads -/

theorem readIntegral_integer_slot (T : IntegralType) (L : lua_State) (fn : String) (index : Int)
    (v : Int) (hslot : index2value L index = some (.integer v)) :
    readFromLuaStack (.integral T) L fn index = (.ok (T.cast v), L) := by
  simp [readFromLuaStack, readIntegral, lua_get_type_cases, hslot, lua_tointeger, LUA_TINTEGER,
    LUA_TNIL]

theorem cast_eq_reducedModulo (T : IntegralType) (v : Int) (hT : T ≠ .bool) :
    T.cast v = reducedModulo T T.bits v := by
  cases T <;>
    first
    | exact absurd rfl hT
    | (simp [IntegralType.cast, reducedModulo, IntegralType.isSigned, IntegralType.bits,
        wrapSigned, wrapUnsigned] <;> split <;> split <;> omega)

theorem cast_inRange (T : IntegralType) (v : Int) : T.InRange (T.cast v) := by
  unfold IntegralType.InRange IntegralType.minValue IntegralType.maxValue
  cases T <;>
    simp [IntegralType.cast, IntegralType.isSigned, IntegralType.bits, wrapSigned,
      wrapUnsigned] <;>
    (try split) <;> omega

theorem cast_congruent (T : IntegralType) (v : Int) (hT : T ≠ .bool) :
    (2 : Int) ^ T.bits ∣ v - T.cast v := by
  cases T <;>
    first
    | exact absurd rfl hT
    | (simp [IntegralType.cast, IntegralType.isSigned, IntegralType.bits, wrapSigned,
        wrapUnsigned]; (try split) <;> omega)

/-- C22, on `bool`: an integer slot holding 2 is read as `true` (1), the nonzero test of
`static_cast<bool>`, while 2 reduced modulo `2^w` is 0 for the one value bit of a `bool` and 2
for the eight bits of its storage. -/
theorem narrowing_bool_counterexample :
    index2value (stateOf [.integer 2]) (-1) = some (.integer 2) ∧
    readFromLuaStack (.integral .bool) (stateOf [.integer 2]) "x" (-1)
      = (.ok 1, stateOf [.integer 2]) ∧
    reducedModulo .bool IntegralType.bool.bits 2 = 0 ∧
    reducedModulo .bool 8 2 = 2 :=
  ⟨by rfl, by rfl, by decide, by decide⟩

/-- C22. On an integer slot holding `v`, `readFromLuaStack<T>` returns a value for every integral
type `T`, namely `static_cast<T>(v)`, and leaves the stack as it is.  For every `T` other than
`bool` that value is `v` reduced modulo `2^w`, `w` being the width of `T`, read in the signedness
of `T`: it is a value of `T` and differs from `v` by a multiple of `2^w`.  For `bool` it is 1 when
`v` is not 0 and 0 otherwise.  For every `T` the value returned is `v` itself exactly when `v` is
a value of `T`. -/
theorem narrowing_modular (T : IntegralType) (L : lua_State) (fn : String) (index : Int)
    (v : Int) (hslot : index2value L index = some (.integer v)) :
    readFromLuaStack (.integral T) L fn index = (.ok (T.cast v), L) ∧
    (T ≠ .bool →
      T.cast v = reducedModulo T T.bits v ∧ T.InRange (T.cast v) ∧
        (2 : Int) ^ T.bits ∣ v - T.cast v) ∧
    (T = .bool → T.cast v = if v = 0 then 0 else 1) ∧
    (T.cast v = v ↔ T.InRange v) := by
  refine ⟨readIntegral_integer_slot T L fn index v hslot, ?_, ?_, ?_⟩
  · intro hT
    exact ⟨cast_eq_reducedModulo T v hT, cast_inRange T v, cast_congruent T v hT⟩
  · intro hT
    subst hT
    rfl
  · constructor
    · intro h
      have := cast_inRange T v
      rwa [h] at this
    · exact cast_of_inRange T v

/-- C22, on an integer slot holding 200 read as a signed 8-bit integer: the value returned is
-56, and 200 is not a value of that type. -/
theorem narrowing_modular_witness :
    index2value (stateOf [.integer 200]) (-1) = some (.integer 200) ∧
    (readFromLuaStack (.integral .int8) (stateOf [.integer 200]) "x" (-1)).1 = .ok (-56) ∧
    ¬ IntegralType.int8.InRange 200 := by
  refine ⟨by rfl, ?_, by decide⟩
  rw [(narrowing_modular .int8 (stateOf [.integer 200]) "x" (-1) 200 (by rfl)).1]
  rfl

/-! ## What a failed conversion leaves on the stack -/

/-- C12. The buffer `String<2>` holding the byte `a` and the terminator is pushed as a table of
its two bytes, not as the string `a`: `pushToLuaStack` has no branch for `String<N>` nor for the
pair of a buffer and a flag, so the first goes to the branch of arrays and the second to the
branch of the pair of an array and a length, with the flag as the number of elements.  The pair
is pushed as a table holding the first byte when the flag is true and as the empty table when it
is false.  Reading either pushed value back at the type it was pushed from fails.  For every
capacity, every buffer, every flag and every state the slot pushed is a table. -/
theorem buffer_push_is_table :
    ((pushToLuaStack (.array (.integral .char) 2) (stateOf []) [97, 0]).stack
        = [.table [(.integer 1, .integer 97), (.integer 2, .integer 0)] 2] ∧
      (readFromLuaStack (.array (.integral .char) 2)
          (pushToLuaStack (.array (.integral .char) 2) (stateOf []) [97, 0]) "x" (-1)).1
        = .error "Unexpected non-string type x") ∧
    ((pushToLuaStack (.arrayPair (.integral .char) 2 .bool) (stateOf []) ([97, 0], 1)).stack
        = [.table [(.integer 1, .integer 97)] 1] ∧
      (pushToLuaStack (.arrayPair (.integral .char) 2 .bool) (stateOf []) ([97, 0], 0)).stack
        = [.table [] 0] ∧
      (readFromLuaStack (.arrayPair (.integral .char) 2 .bool)
          (pushToLuaStack (.arrayPair (.integral .char) 2 .bool) (stateOf []) ([97, 0], 1))
          "x" (-1)).1
        = .error "Unexpected non-string type x") ∧
    (∀ (N : Nat) (buf : List Int) (L : lua_State),
      lua_type (pushToLuaStack (.array (.integral .char) N) L buf) (-1) = LUA_TTABLE) ∧
    (∀ (N : Nat) (value : List Int × Int) (L : lua_State),
      lua_type (pushToLuaStack (.arrayPair (.integral .char) N .bool) L value) (-1)
        = LUA_TTABLE) ∧
    LUA_TTABLE ≠ LUA_TSTRING := by
  refine ⟨⟨by rfl, by rfl⟩, ⟨by rfl, by rfl, by rfl⟩, ?_, ?_, by decide⟩
  · intro N buf L
    rw [pushToLuaStack_eq L.getn _ L rfl]
    unfold lua_type
    rw [index2value_top]
    rfl
  · intro N value L
    rw [pushToLuaStack_eq L.getn _ L rfl]
    unfold lua_type
    rw [index2value_top]
    rfl

end LuaBindings
